import Mathlib

/-!
# freebsd-logo-gl: the geometry generators and the render step of `logowindow.cpp`

A shallow embedding of `Renderer` from `src/logowindow.cpp` in exact arithmetic.
Scalars range over a linear ordered field `α` (floor ring, so the radial `while` loop of
`createHorn` is a total function); the C library functions the program calls are collected
in `MathOps`.  Taking `α := ℝ` with the real sine, cosine and square root gives the
"exact real arithmetic" reading of the program.
-/

namespace LogoGL

/-! ## Scalars and library functions -/

/-- The library functions the program calls on scalars: `qSin`, `qCos`, the square root taken
inside `QVector3D::normalized`, and the constant `M_PI` used by `QMatrix4x4::rotate`. -/
structure MathOps (α : Type) where
  qSin : α → α
  qCos : α → α
  qSqrt : α → α
  M_PI : α

/-- A C++ `int` expression evaluated with 32-bit two's-complement wrap-around. -/
def wrapInt (n : Int) : Int :=
  (n + 2147483648) % 4294967296 - 2147483648

/-! ## QVector3D -/

/-- Qt's `QVector3D`: three coordinates. -/
@[ext] structure QVector3D (α : Type) where
  x : α
  y : α
  z : α

namespace QVector3D

variable {α : Type} [LinearOrderedField α]

/-- The difference `operator-(v1, v2)`. -/
def sub (v1 v2 : QVector3D α) : QVector3D α :=
  ⟨v1.x - v2.x, v1.y - v2.y, v1.z - v2.z⟩

/-- The scaling `operator*=(factor)`: every coordinate is multiplied by `factor`. -/
def mulScalar (v : QVector3D α) (factor : α) : QVector3D α :=
  ⟨v.x * factor, v.y * factor, v.z * factor⟩

/-- The function `QVector3D::dotProduct`. -/
def dotProduct (v1 v2 : QVector3D α) : α :=
  v1.x * v2.x + v1.y * v2.y + v1.z * v2.z

/-- The function `QVector3D::crossProduct`. -/
def crossProduct (v1 v2 : QVector3D α) : QVector3D α :=
  ⟨v1.y * v2.z - v1.z * v2.y, v1.z * v2.x - v1.x * v2.z, v1.x * v2.y - v1.y * v2.x⟩

/-- The function `QVector3D::lengthSquared`. -/
def lengthSquared (v : QVector3D α) : α :=
  v.x * v.x + v.y * v.y + v.z * v.z

/-- The function `QVector3D::normalized` (and the in-place `normalize`): the vector divided by its length;
a null vector is returned as it is.  (Qt's tolerance tests `qFuzzyIsNull` are exact tests
here.) -/
def normalized (M : MathOps α) (v : QVector3D α) : QVector3D α :=
  if lengthSquared v = 0 then v
  else ⟨v.x / M.qSqrt (lengthSquared v), v.y / M.qSqrt (lengthSquared v),
    v.z / M.qSqrt (lengthSquared v)⟩

/-- The function `QVector3D::normal(v1, v2)`: Qt returns `crossProduct(v1, v2).normalized()`, the unit
normal of the plane spanned by `v1` and `v2`. -/
def normal (M : MathOps α) (v1 v2 : QVector3D α) : QVector3D α :=
  normalized M (crossProduct v1 v2)

end QVector3D

/-! ## QMatrix4x4 -/

/-- Qt's `QMatrix4x4`, entries `m<row><column>`. -/
structure QMatrix4x4 (α : Type) where
  m11 : α
  m12 : α
  m13 : α
  m14 : α
  m21 : α
  m22 : α
  m23 : α
  m24 : α
  m31 : α
  m32 : α
  m33 : α
  m34 : α
  m41 : α
  m42 : α
  m43 : α
  m44 : α

namespace QMatrix4x4

variable {α : Type} [LinearOrderedField α]

/-- The default-constructed matrix: the identity. -/
def identity : QMatrix4x4 α :=
  ⟨1, 0, 0, 0, 0, 1, 0, 0, 0, 0, 1, 0, 0, 0, 0, 1⟩

/-- The matrix product `operator*(m1, m2)`. -/
def mul (a b : QMatrix4x4 α) : QMatrix4x4 α :=
  ⟨a.m11 * b.m11 + a.m12 * b.m21 + a.m13 * b.m31 + a.m14 * b.m41,
   a.m11 * b.m12 + a.m12 * b.m22 + a.m13 * b.m32 + a.m14 * b.m42,
   a.m11 * b.m13 + a.m12 * b.m23 + a.m13 * b.m33 + a.m14 * b.m43,
   a.m11 * b.m14 + a.m12 * b.m24 + a.m13 * b.m34 + a.m14 * b.m44,
   a.m21 * b.m11 + a.m22 * b.m21 + a.m23 * b.m31 + a.m24 * b.m41,
   a.m21 * b.m12 + a.m22 * b.m22 + a.m23 * b.m32 + a.m24 * b.m42,
   a.m21 * b.m13 + a.m22 * b.m23 + a.m23 * b.m33 + a.m24 * b.m43,
   a.m21 * b.m14 + a.m22 * b.m24 + a.m23 * b.m34 + a.m24 * b.m44,
   a.m31 * b.m11 + a.m32 * b.m21 + a.m33 * b.m31 + a.m34 * b.m41,
   a.m31 * b.m12 + a.m32 * b.m22 + a.m33 * b.m32 + a.m34 * b.m42,
   a.m31 * b.m13 + a.m32 * b.m23 + a.m33 * b.m33 + a.m34 * b.m43,
   a.m31 * b.m14 + a.m32 * b.m24 + a.m33 * b.m34 + a.m34 * b.m44,
   a.m41 * b.m11 + a.m42 * b.m21 + a.m43 * b.m31 + a.m44 * b.m41,
   a.m41 * b.m12 + a.m42 * b.m22 + a.m43 * b.m32 + a.m44 * b.m42,
   a.m41 * b.m13 + a.m42 * b.m23 + a.m43 * b.m33 + a.m44 * b.m43,
   a.m41 * b.m14 + a.m42 * b.m24 + a.m43 * b.m34 + a.m44 * b.m44⟩

/-- The function `translate(x, y, z)`: multiplies this matrix by the translation by `(x, y, z)`. -/
def translate (m : QMatrix4x4 α) (x y z : α) : QMatrix4x4 α :=
  mul m ⟨1, 0, 0, x, 0, 1, 0, y, 0, 0, 1, z, 0, 0, 0, 1⟩

/-- The function `scale(x, y, z)`: multiplies this matrix by the scaling by `x`, `y`, `z`. -/
def scale (m : QMatrix4x4 α) (x y z : α) : QMatrix4x4 α :=
  mul m ⟨x, 0, 0, 0, 0, y, 0, 0, 0, 0, z, 0, 0, 0, 0, 1⟩

/-- The function `rotate(angle, x, y, z)`: multiplies this matrix by the rotation of `angle` degrees about
the axis `(x, y, z)`; the axis is normalised first, and a null axis leaves the matrix as
it is. -/
def rotate (M : MathOps α) (m : QMatrix4x4 α) (angle x y z : α) : QMatrix4x4 α :=
  if angle = 0 then m
  else if x * x + y * y + z * z = 0 then m
  else
    let a := angle * M.M_PI / 180
    let c := M.qCos a
    let s := M.qSin a
    let len := M.qSqrt (x * x + y * y + z * z)
    let x := x / len
    let y := y / len
    let z := z / len
    let ic := 1 - c
    mul m ⟨x * x * ic + c, x * y * ic - z * s, x * z * ic + y * s, 0,
           y * x * ic + z * s, y * y * ic + c, y * z * ic - x * s, 0,
           x * z * ic - y * s, y * z * ic + x * s, z * z * ic + c, 0,
           0, 0, 0, 1⟩

/-- The function `map(point)`: the point transformed by this matrix, divided by the resulting `w`
when that is not 1. -/
def map (m : QMatrix4x4 α) (p : QVector3D α) : QVector3D α :=
  let x := p.x * m.m11 + p.y * m.m12 + p.z * m.m13 + m.m14
  let y := p.x * m.m21 + p.y * m.m22 + p.z * m.m23 + m.m24
  let z := p.x * m.m31 + p.y * m.m32 + p.z * m.m33 + m.m34
  let w := p.x * m.m41 + p.y * m.m42 + p.z * m.m43 + m.m44
  if w = 1 then ⟨x, y, z⟩ else ⟨x / w, y / w, z / w⟩

/-- The function `mapVector(vector)`: the vector multiplied by the top 3x3 part of this matrix (no
translation).  The program does not call it; differences of mapped points are stated
with it. -/
def mapVector (m : QMatrix4x4 α) (v : QVector3D α) : QVector3D α :=
  ⟨v.x * m.m11 + v.y * m.m12 + v.z * m.m13,
   v.x * m.m21 + v.y * m.m22 + v.z * m.m23,
   v.x * m.m31 + v.y * m.m32 + v.z * m.m33⟩

end QMatrix4x4

/-! ## Renderer -/

/-- The fields of `Renderer` the embedded functions read or write.  `m_surface` is the bound
window (`none` for `NULL`); `m_vbo` is the content written to the vertex buffer object;
`scheduled` counts the `QTimer::singleShot(0, this, SLOT(render()))` calls issued;
`presented` counts the `swapBuffers` calls. -/
structure Renderer (α : Type) where
  vertices : List (QVector3D α)
  normals : List (QVector3D α)
  m_initialized : Bool
  m_frame : Int
  m_surface : Option Nat
  m_vbo : List (QVector3D α)
  scheduled : Nat
  presented : Nat

/-- The four corner points of one cell and the normal emitted for it. -/
structure Cell (α : Type) where
  p1 : QVector3D α
  p2 : QVector3D α
  p3 : QVector3D α
  p4 : QVector3D α
  n : QVector3D α

section Generators

variable {α : Type} [LinearOrderedField α]

/-- The local constant `Pi = 3.14159f` of `createSphere` and `createHorn`. -/
def Pi : α := 3.14159

/-- The twelve `<<` statements closing a loop body: triangles `(p1, p2, p3)` and
`(p3, p4, p1)` go to `vertices`, six copies of `n` go to `normals`. -/
def emit (s : Renderer α) (c : Cell α) : Renderer α :=
  { s with
    vertices := s.vertices ++ [c.p1, c.p2, c.p3, c.p3, c.p4, c.p1]
    normals := s.normals ++ [c.n, c.n, c.n, c.n, c.n, c.n] }

/-- The function `Renderer::fromSph`. -/
def fromSph (M : MathOps α) (r theta phi : α) : QVector3D α :=
  ⟨r * M.qCos theta * M.qSin phi, r * M.qSin theta * M.qSin phi, r * M.qCos phi⟩

/-- The body of the inner loop of `createSphere` from the four angles on, up to the `<<`
statements; `lastBand` is the outcome of the test `j + 1 == NumSectors/2`. -/
def sphereQuad (M : MathOps α) (angle1 angle2 angle3 angle4 : α) (lastBand : Bool) : Cell α :=
  let r : α := 0.30
  let p1 := fromSph M r angle1 angle3
  let p2 := fromSph M r angle1 angle4
  let p3 := fromSph M r angle2 angle4
  let p4 := fromSph M r angle2 angle3
  let n := QVector3D.normal M (p1.sub p2) (p3.sub p2)
  let n := if lastBand then QVector3D.normal M (p1.sub p4) (p1.sub p2) else n
  ⟨p1, p2, p3, p4, n⟩

/-- The body of the inner loop of `createSphere` up to the `<<` statements, for loop
indices `i`, `j` and `NumSectors` sectors.  The `int` products `i * 2`, `(i + 1) * 2`,
`j * 2`, `(j + 1) * 2` wrap. -/
def sphereCell (M : MathOps α) (NumSectors : Nat) (i j : Nat) : Cell α :=
  let angle1 : α := ((wrapInt (i * 2) : Int) : α) * Pi / (NumSectors : α)
  let angle2 : α := ((wrapInt ((i + 1) * 2) : Int) : α) * Pi / (NumSectors : α)
  let angle3 : α := ((wrapInt (j * 2) : Int) : α) * Pi / (NumSectors : α)
  let angle4 : α := ((wrapInt ((j + 1) * 2) : Int) : α) * Pi / (NumSectors : α)
  sphereQuad M angle1 angle2 angle3 angle4 (decide (j + 1 = NumSectors / 2))

/-- The two nested `for` loops of `createSphere`, with the sector count as a parameter. -/
def createSphereWith (M : MathOps α) (NumSectors : Nat) (s : Renderer α) : Renderer α :=
  (List.range NumSectors).foldl
    (fun s i => (List.range (NumSectors / 2)).foldl
      (fun s j => emit s (sphereCell M NumSectors i j)) s) s

/-- The function `Renderer::createSphere`: `NumSectors = 200`. -/
def createSphere (M : MathOps α) (s : Renderer α) : Renderer α :=
  createSphereWith M 200 s

/-- The body of the `while` loop of `createHorn` up to the `<<` statements, for the
angles of the sector and the radii `r1`, `r2` of the ring. -/
def hornCell (M : MathOps α) (transform : QMatrix4x4 α) (angle1 angle2 r1 r2 : α) : Cell α :=
  let a : α := 7
  let p1 : QVector3D α := ⟨r1 * M.qSin angle1, r1 * M.qCos angle1, r1 * r1 * a⟩
  let p2 : QVector3D α := ⟨r2 * M.qSin angle1, r2 * M.qCos angle1, r2 * r2 * a⟩
  let p3 : QVector3D α := ⟨r2 * M.qSin angle2, r2 * M.qCos angle2, r2 * r2 * a⟩
  let p4 : QVector3D α := ⟨r1 * M.qSin angle2, r1 * M.qCos angle2, r1 * r1 * a⟩
  let p1 := transform.map p1
  let p2 := transform.map p2
  let p3 := transform.map p3
  let p4 := transform.map p4
  let n :=
    if r1 = 0 then
      let d1 := p1.sub p2
      let d2 := p3.sub p1
      let d1 := QVector3D.normalized M d1
      let d2 := QVector3D.normalized M d2
      QVector3D.normal M d1 d2
    else QVector3D.normal M (p1.sub p2) (p3.sub p2)
  ⟨p1, p2, p3, p4, n⟩

/-- The `while (r*r*a < 0.5)` loop of `createHorn`, entered with radius `r`: each turn
takes `r1 = r`, `r2 = r + r_step`, advances `r` by `r_step = 0.01` and emits one cell.
The loop is a total function: `r*r*a < 0.5` forces `r < 1`, and each turn lowers
`⌈(1 - r) * 100⌉` by one. -/
def hornRings [FloorRing α] (M : MathOps α) (transform : QMatrix4x4 α) (angle1 angle2 : α)
    (r : α) (s : Renderer α) : Renderer α :=
  if r * r * (7 : α) < 0.5 then
    let r1 := r
    let r2 := r + 0.01
    hornRings M transform angle1 angle2 (r + 0.01)
      (emit s (hornCell M transform angle1 angle2 r1 r2))
  else s
termination_by ⌈(1 - r) * 100⌉₊
decreasing_by
  rename_i h
  have h1 : r < 1 := by
    by_contra hc
    have h2 : (1 : α) ≤ r * r := by nlinarith [not_lt.mp hc]
    norm_num at h
    linarith
  have hx : (1 - (r + 0.01)) * 100 = (1 - r) * 100 - 1 := by norm_num; ring
  rw [hx]
  have hpos : 0 < (1 - r) * 100 := by linarith
  rcases le_or_lt 0 ((1 - r) * 100 - 1) with h0 | h0
  · have h3 := Nat.ceil_add_one h0
    rw [sub_add_cancel] at h3
    omega
  · have h3 : ⌈(1 - r) * 100 - 1⌉₊ = 0 := Nat.ceil_eq_zero.mpr h0.le
    have h4 : 0 < ⌈(1 - r) * 100⌉₊ := Nat.ceil_pos.mpr hpos
    omega

/-- The function `Renderer::createHorn(transform, details)`: for each of `details` sectors the radial
loop is run from `r = 0`.  The `int` products `i * 2` and `(i + 1) * 2` wrap. -/
def createHorn [FloorRing α] (M : MathOps α) (transform : QMatrix4x4 α) (details : Int)
    (s : Renderer α) : Renderer α :=
  (List.range details.toNat).foldl
    (fun s (i : Nat) =>
      let angle1 : α := ((wrapInt (i * 2) : Int) : α) * Pi / (details : α)
      let angle2 : α := ((wrapInt ((i + 1) * 2) : Int) : α) * Pi / (details : α)
      hornRings M transform angle1 angle2 0 s) s

/-- The matrix `transform1` built in `createHorns`. -/
def transform1 (M : MathOps α) : QMatrix4x4 α :=
  ((QMatrix4x4.identity.translate (-0.3) 0 0.3).rotate M 135 0 1 0).scale 0.3 0.3 0.3

/-- The matrix `transform2` built in `createHorns`. -/
def transform2 (M : MathOps α) : QMatrix4x4 α :=
  ((QMatrix4x4.identity.translate 0.3 0 0.3).rotate M 225 0 1 0).scale 0.3 0.3 0.3

/-- The function `Renderer::createHorns`: two horns, each with the default `details = 100`. -/
def createHorns [FloorRing α] (M : MathOps α) (s : Renderer α) : Renderer α :=
  createHorn M (transform2 M) 100 (createHorn M (transform1 M) 100 s)

/-- The loop `for (int i = 0; i < vertices.size(); i++) vertices[i] *= 2.0f;`, entered
with index `i`. -/
def scaleLoop (i : Nat) (vertices : List (QVector3D α)) : List (QVector3D α) :=
  if h : i < vertices.length then
    scaleLoop (i + 1) (vertices.set i ((vertices.get ⟨i, h⟩).mulScalar 2.0))
  else vertices
termination_by vertices.length - i
decreasing_by
  simp only [List.length_set]
  omega

/-- The function `Renderer::createGeometry`. -/
def createGeometry [FloorRing α] (M : MathOps α) (s : Renderer α) : Renderer α :=
  let s := { s with vertices := [], normals := [] }
  let s := createSphere M s
  let s := createHorns M s
  { s with vertices := scaleLoop 0 s.vertices }

/-- The function `Renderer::initialize`: the shader program is set up (not modelled), the geometry is
created and written to the buffer object, vertices first, normals after them. -/
def initializeRenderer [FloorRing α] (M : MathOps α) (s : Renderer α) : Renderer α :=
  let s := createGeometry M s
  { s with m_vbo := s.vertices ++ s.normals }

/-- The function `Renderer::setAnimating(window, animating)`. -/
def setAnimating (s : Renderer α) (window : Nat) (animating : Bool) : Renderer α :=
  if animating then
    { s with m_surface := some window, scheduled := s.scheduled + 1 }
  else
    { s with m_surface := none }

/-- The function `Renderer::render`.  The argument `makeCurrent` is the result `m_context->makeCurrent(m_surface)`
would return; the OpenGL calls are reduced to the count of presented frames. -/
def render [FloorRing α] (M : MathOps α) (makeCurrent : Bool) (s : Renderer α) : Renderer α :=
  match s.m_surface with
  | none => s
  | some _ =>
    if !makeCurrent then s
    else
      let s := if !s.m_initialized then { initializeRenderer M s with m_initialized := true } else s
      { s with
        presented := s.presented + 1
        m_frame := wrapInt (s.m_frame + 1)
        scheduled := s.scheduled + 1 }

end Generators

/-! ## The generators as lists of cells -/

section Cells

variable {α : Type} [LinearOrderedField α]

/-- The six positions `emit` appends for a cell. -/
def cellVertices (c : Cell α) : List (QVector3D α) :=
  [c.p1, c.p2, c.p3, c.p3, c.p4, c.p1]

/-- The six normals `emit` appends for a cell. -/
def cellNormals (c : Cell α) : List (QVector3D α) :=
  [c.n, c.n, c.n, c.n, c.n, c.n]

/-- The state after emitting the cells `cs` in order. -/
def emitAll (s : Renderer α) (cs : List (Cell α)) : Renderer α :=
  { s with
    vertices := s.vertices ++ cs.flatMap cellVertices
    normals := s.normals ++ cs.flatMap cellNormals }

/-- The cells of the sphere in the order the loops of `createSphere` visit them. -/
def sphereCells (M : MathOps α) (NumSectors : Nat) : List (Cell α) :=
  (List.range NumSectors).flatMap
    (fun i => (List.range (NumSectors / 2)).map (fun j => sphereCell M NumSectors i j))

/-- The cells of rings `k, k + 1, ..., k + n - 1` of one horn sector; ring `j` lies between
the radii `j * 0.01` and `j * 0.01 + 0.01`. -/
def ringCells (M : MathOps α) (transform : QMatrix4x4 α) (angle1 angle2 : α) (k n : Nat) :
    List (Cell α) :=
  (List.range' k n).map
    (fun (j : Nat) =>
      hornCell M transform angle1 angle2 ((j : α) * 0.01) ((j : α) * 0.01 + 0.01))

/-- The cells of a horn in the order the loops of `createHorn` visit them: 27 rings in
each sector. -/
def hornCells (M : MathOps α) (transform : QMatrix4x4 α) (details : Int) : List (Cell α) :=
  (List.range details.toNat).flatMap
    (fun (i : Nat) => ringCells M transform
      (((wrapInt (i * 2) : Int) : α) * Pi / (details : α))
      (((wrapInt ((i + 1) * 2) : Int) : α) * Pi / (details : α)) 0 27)

/-- All cells of the logo in the order `createGeometry` generates them: the sphere, the
horn placed by `transform1`, the horn placed by `transform2`. -/
def allCells (M : MathOps α) : List (Cell α) :=
  sphereCells M 200 ++ hornCells M (transform1 M) 100 ++ hornCells M (transform2 M) 100

/-- What it takes for the cell of an apex ring (`r1 == 0`) to be non-degenerate: `p1` and
`p4` are one point, the edge vectors `d1 = p1 - p2` and `d2 = p3 - p1` are nonzero and
not parallel (nonzero cross product), no normalisation divides by zero, and the emitted
normal `normal(normalize(d1), normalize(d2))` is a nonzero vector (of unit length). -/
def ApexNonDegenerate (M : MathOps α) (c : Cell α) : Prop :=
  c.p1 = c.p4 ∧
  c.p1.sub c.p2 ≠ ⟨0, 0, 0⟩ ∧
  c.p3.sub c.p1 ≠ ⟨0, 0, 0⟩ ∧
  (c.p1.sub c.p2).crossProduct (c.p3.sub c.p1) ≠ ⟨0, 0, 0⟩ ∧
  M.qSqrt (c.p1.sub c.p2).lengthSquared ≠ 0 ∧
  M.qSqrt (c.p3.sub c.p1).lengthSquared ≠ 0 ∧
  M.qSqrt ((QVector3D.normalized M (c.p1.sub c.p2)).crossProduct
    (QVector3D.normalized M (c.p3.sub c.p1))).lengthSquared ≠ 0 ∧
  c.n = QVector3D.normal M (QVector3D.normalized M (c.p1.sub c.p2))
    (QVector3D.normalized M (c.p3.sub c.p1)) ∧
  c.n ≠ ⟨0, 0, 0⟩ ∧
  c.n.lengthSquared = 1

/-- The buffers of `s` hold the cell `c` as the `k`-th cell appended after the buffers of
`s0`: past the end of the buffers of `s0`, entries `6 * k` to `6 * k + 5` of `vertices`
are `p1, p2, p3, p3, p4, p1` and those of `normals` are six copies of `n`. -/
def EmitsCellAt (s0 s : Renderer α) (k : Nat) (c : Cell α) : Prop :=
  (s.vertices.drop (s0.vertices.length + 6 * k)).take 6 = cellVertices c ∧
  (s.normals.drop (s0.normals.length + 6 * k)).take 6 = cellNormals c

/-- The buffer-shape invariant: as many normals as positions, and a multiple of 3 of
them. -/
def BufferShape (s : Renderer α) : Prop :=
  s.vertices.length = s.normals.length ∧ s.vertices.length % 3 = 0

/-- A renderer as the constructor leaves it, with empty buffers. -/
def freshRenderer : Renderer α :=
  ⟨[], [], false, 0, none, [], 0, 0⟩

end Cells

/-! ## Loops as cell lists -/

section LoopLemmas

theorem emitAll_nil {α : Type} (s : Renderer α) : emitAll s [] = s := by
  simp [emitAll]

theorem emitAll_append {α : Type} (s : Renderer α) (cs ds : List (Cell α)) :
    emitAll (emitAll s cs) ds = emitAll s (cs ++ ds) := by
  simp [emitAll, List.flatMap_append, List.append_assoc]

theorem emit_eq_emitAll {α : Type} (s : Renderer α) (c : Cell α) : emit s c = emitAll s [c] := by
  simp [emit, emitAll, cellVertices, cellNormals]

theorem foldl_emit {α : Type} (f : Nat → Cell α) (l : List Nat) (s : Renderer α) :
    l.foldl (fun s j => emit s (f j)) s = emitAll s (l.map f) := by
  induction l generalizing s with
  | nil => simp [emitAll_nil]
  | cons a l ih =>
    rw [List.foldl_cons, ih, emit_eq_emitAll, emitAll_append]
    rfl

theorem foldl_emitAll {α : Type} (g : Nat → List (Cell α)) (l : List Nat) (s : Renderer α) :
    l.foldl (fun s i => emitAll s (g i)) s = emitAll s (l.flatMap g) := by
  induction l generalizing s with
  | nil => simp [emitAll_nil]
  | cons a l ih =>
    rw [List.foldl_cons, ih, emitAll_append, List.flatMap_cons]

theorem createSphereWith_eq {α : Type} [LinearOrderedField α] (M : MathOps α) (N : Nat) (s : Renderer α) :
    createSphereWith M N s = emitAll s (sphereCells M N) := by
  unfold createSphereWith sphereCells
  simp only [foldl_emit]
  exact foldl_emitAll _ _ _

theorem hornRings_eq {α : Type} [LinearOrderedField α] [FloorRing α] (M : MathOps α) (t : QMatrix4x4 α) (a1 a2 : α) :
    ∀ (n k : Nat), k + n = 27 → ∀ s : Renderer α,
      hornRings M t a1 a2 ((k : α) * 0.01) s = emitAll s (ringCells M t a1 a2 k n) := by
  intro n
  induction n with
  | zero =>
    intro k hk s
    have hk27 : k = 27 := by omega
    subst hk27
    rw [hornRings, if_neg (by norm_num)]
    simp [ringCells, emitAll_nil]
  | succ n ih =>
    intro k hk s
    have hk26 : (k : α) ≤ 26 := by
      have : k ≤ 26 := by omega
      exact_mod_cast this
    have hk0 : (0 : α) ≤ k := Nat.cast_nonneg k
    have hcond : (k : α) * 0.01 * ((k : α) * 0.01) * 7 < 0.5 := by
      have h2 : (k : α) * k ≤ 26 * 26 := mul_le_mul hk26 hk26 hk0 (by norm_num)
      norm_num
      nlinarith
    have hnext : (k : α) * 0.01 + 0.01 = ((k + 1 : Nat) : α) * 0.01 := by
      push_cast
      ring
    rw [hornRings, if_pos hcond]
    simp only []
    rw [hnext, ih (k + 1) (by omega), emit_eq_emitAll, emitAll_append, ← hnext]
    simp [ringCells, List.range'_succ]

theorem hornRings_zero {α : Type} [LinearOrderedField α] [FloorRing α] (M : MathOps α) (t : QMatrix4x4 α) (a1 a2 : α)
    (s : Renderer α) :
    hornRings M t a1 a2 0 s = emitAll s (ringCells M t a1 a2 0 27) := by
  have h := hornRings_eq M t a1 a2 27 0 (by norm_num) s
  simpa using h

theorem createHorn_eq {α : Type} [LinearOrderedField α] [FloorRing α] (M : MathOps α) (t : QMatrix4x4 α) (D : Int)
    (s : Renderer α) :
    createHorn M t D s = emitAll s (hornCells M t D) := by
  unfold createHorn hornCells
  simp only [hornRings_zero]
  exact foldl_emitAll _ _ _

theorem foldl_emit_cells {α : Type} (cs : List (Cell α)) (s : Renderer α) :
    cs.foldl emit s = emitAll s cs := by
  induction cs generalizing s with
  | nil => simp [emitAll_nil]
  | cons c cs ih => rw [List.foldl_cons, ih, emit_eq_emitAll, emitAll_append]; rfl

theorem length_flatMap_cellVertices {α : Type} (cs : List (Cell α)) :
    (cs.flatMap cellVertices).length = 6 * cs.length := by
  induction cs with
  | nil => simp
  | cons c cs ih => simp [List.flatMap_cons, cellVertices, ih]; omega

theorem length_flatMap_cellNormals {α : Type} (cs : List (Cell α)) :
    (cs.flatMap cellNormals).length = 6 * cs.length := by
  induction cs with
  | nil => simp
  | cons c cs ih => simp [List.flatMap_cons, cellNormals, ih]; omega

theorem length_flatMap_const {β : Type} (g : Nat → List β) (k : Nat) (l : List Nat)
    (hg : ∀ i, (g i).length = k) : (l.flatMap g).length = l.length * k := by
  induction l with
  | nil => simp
  | cons a l ih => simp [List.flatMap_cons, hg, ih, Nat.succ_mul]; omega

theorem length_sphereCells {α : Type} [LinearOrderedField α] (M : MathOps α) (N : Nat) :
    (sphereCells M N).length = N * (N / 2) := by
  unfold sphereCells
  rw [length_flatMap_const _ (N / 2) _ (by intro i; simp)]
  simp

theorem length_ringCells {α : Type} [LinearOrderedField α] (M : MathOps α) (t : QMatrix4x4 α) (a1 a2 : α) (k n : Nat) :
    (ringCells M t a1 a2 k n).length = n := by
  simp [ringCells]

theorem length_hornCells {α : Type} [LinearOrderedField α] (M : MathOps α) (t : QMatrix4x4 α) (D : Int) :
    (hornCells M t D).length = D.toNat * 27 := by
  unfold hornCells
  rw [length_flatMap_const _ 27 _ (by intro i; exact length_ringCells M t _ _ 0 27)]
  simp

theorem emitAll_vertices_length {α : Type} (s : Renderer α) (cs : List (Cell α)) :
    (emitAll s cs).vertices.length = s.vertices.length + 6 * cs.length := by
  simp only [emitAll, List.length_append]
  rw [length_flatMap_cellVertices]

theorem emitAll_normals_length {α : Type} (s : Renderer α) (cs : List (Cell α)) :
    (emitAll s cs).normals.length = s.normals.length + 6 * cs.length := by
  simp only [emitAll, List.length_append]
  rw [length_flatMap_cellNormals]

theorem emitAll_shape {α : Type} (s : Renderer α) (cs : List (Cell α)) (h : BufferShape s) :
    BufferShape (emitAll s cs) := by
  unfold BufferShape at *
  rw [emitAll_vertices_length, emitAll_normals_length]
  omega

theorem set_take_drop {β : Type} (f : β → β) (vs : List β) (i : Nat) (h : i < vs.length) :
    (vs.set i (f (vs.get ⟨i, h⟩))).take (i + 1) ++
        ((vs.set i (f (vs.get ⟨i, h⟩))).drop (i + 1)).map f
      = vs.take i ++ (vs.drop i).map f := by
  induction vs generalizing i with
  | nil => simp at h
  | cons a l ih =>
    cases i with
    | zero => simp
    | succ i =>
      simp only [List.length_cons, Nat.add_lt_add_iff_right] at h
      simpa using ih i h

theorem scaleLoop_from {α : Type} [LinearOrderedField α] (n : Nat) : ∀ (i : Nat) (vs : List (QVector3D α)), vs.length - i = n →
    scaleLoop i vs = vs.take i ++ (vs.drop i).map (fun v => v.mulScalar 2.0) := by
  induction n with
  | zero =>
    intro i vs h
    have hle : vs.length ≤ i := by omega
    rw [scaleLoop, dif_neg (by omega)]
    simp [List.take_of_length_le hle, List.drop_of_length_le hle]
  | succ n ih =>
    intro i vs h
    have hlt : i < vs.length := by omega
    rw [scaleLoop, dif_pos hlt, ih (i + 1) _ (by simp only [List.length_set]; omega)]
    exact set_take_drop (fun v => v.mulScalar 2.0) vs i hlt

theorem scaleLoop_eq_map {α : Type} [LinearOrderedField α] (vs : List (QVector3D α)) :
    scaleLoop 0 vs = vs.map (fun v => v.mulScalar 2.0) := by
  simpa using scaleLoop_from (vs.length - 0) 0 vs rfl

theorem createGeometry_unfold {α : Type} [LinearOrderedField α] [FloorRing α] (M : MathOps α)
    (s : Renderer α) :
    createGeometry M s =
      { createHorns M (createSphere M { s with vertices := [], normals := [] }) with
        vertices := scaleLoop 0
          (createHorns M (createSphere M { s with vertices := [], normals := [] })).vertices } :=
  rfl

theorem createHorns_createSphere_eq {α : Type} [LinearOrderedField α] [FloorRing α]
    (M : MathOps α) (s : Renderer α) :
    createHorns M (createSphere M s) = emitAll s (allCells M) := by
  rw [createHorns, createSphere, createSphereWith_eq, createHorn_eq, createHorn_eq,
    emitAll_append, emitAll_append, allCells, List.append_assoc]

theorem scaled_emitAll_cleared {α : Type} (f : QVector3D α → QVector3D α) (s : Renderer α)
    (cs : List (Cell α)) :
    { emitAll { s with vertices := [], normals := [] } cs with
        vertices := (emitAll { s with vertices := [], normals := [] } cs).vertices.map f } =
      { s with vertices := (cs.flatMap cellVertices).map f, normals := cs.flatMap cellNormals } := by
  simp only [emitAll, List.nil_append]

theorem createGeometry_eq {α : Type} [LinearOrderedField α] [FloorRing α] (M : MathOps α)
    (s : Renderer α) :
    createGeometry M s =
      { s with
        vertices := ((allCells M).flatMap cellVertices).map (fun v => v.mulScalar 2.0)
        normals := (allCells M).flatMap cellNormals } := by
  rw [createGeometry_unfold, createHorns_createSphere_eq, scaleLoop_eq_map]
  exact scaled_emitAll_cleared _ s (allCells M)

theorem createGeometry_vertices {α : Type} [LinearOrderedField α] [FloorRing α]
    (M : MathOps α) (s : Renderer α) :
    (createGeometry M s).vertices =
      ((allCells M).flatMap cellVertices).map (fun v => v.mulScalar 2.0) := by
  rw [createGeometry_eq]

theorem createGeometry_normals {α : Type} [LinearOrderedField α] [FloorRing α]
    (M : MathOps α) (s : Renderer α) :
    (createGeometry M s).normals = (allCells M).flatMap cellNormals := by
  rw [createGeometry_eq]

theorem fresh_geometry_vertices {α : Type} [LinearOrderedField α] [FloorRing α]
    (M : MathOps α) :
    (createHorns M (createSphere M freshRenderer)).vertices
      = (allCells M).flatMap cellVertices := by
  rw [createHorns_createSphere_eq]
  exact List.nil_append _

theorem fresh_geometry_normals {α : Type} [LinearOrderedField α] [FloorRing α]
    (M : MathOps α) :
    (createHorns M (createSphere M freshRenderer)).normals
      = (allCells M).flatMap cellNormals := by
  rw [createHorns_createSphere_eq]
  exact List.nil_append _

theorem mulScalar_two {α : Type} [LinearOrderedField α] :
    (fun v : QVector3D α => v.mulScalar 2.0) = (fun v => ⟨v.x * 2, v.y * 2, v.z * 2⟩) := by
  funext v
  have h2 : (2.0 : α) = 2 := by norm_num
  simp only [QVector3D.mulScalar, h2]

end LoopLemmas

/-! ## Buffer lengths and the assembler -/

section Structural

/-- C1. Buffer-shape invariant: from a state whose `vertices` and `normals` have the same
length, a multiple of 3, each of `createSphere`, `createHorn` (every transform, every
details count) and `createGeometry` ends in such a state; `createGeometry` does so from
any starting state. -/
theorem buffer_shape_invariant {α : Type} [LinearOrderedField α] [FloorRing α] (M : MathOps α) (s : Renderer α) (h : BufferShape s) :
    BufferShape (createSphere M s) ∧
    (∀ (transform : QMatrix4x4 α) (details : Int),
      BufferShape (createHorn M transform details s)) ∧
    BufferShape (createGeometry M s) ∧
    (∀ s0 : Renderer α, BufferShape (createGeometry M s0)) := by
  have hgeo : ∀ s0 : Renderer α, BufferShape (createGeometry M s0) := by
    intro s0
    rw [createGeometry_eq]
    generalize allCells M = cs
    simp only [BufferShape, List.length_map, length_flatMap_cellVertices,
      length_flatMap_cellNormals]
    exact ⟨trivial, by omega⟩
  refine ⟨?_, ?_, hgeo s, hgeo⟩
  · rw [createSphere, createSphereWith_eq]
    exact emitAll_shape s _ h
  · intro t D
    rw [createHorn_eq]
    exact emitAll_shape s _ h

/-- C2. `createSphere` with `N` sectors appends exactly `N * (N / 2) * 6` positions and as
many normals; with the program's `N = 200` that is 120000 of each. -/
theorem createSphere_appends {α : Type} [LinearOrderedField α] (M : MathOps α) (N : Nat) (s : Renderer α) :
    (createSphereWith M N s).vertices.length = s.vertices.length + N * (N / 2) * 6 ∧
    (createSphereWith M N s).normals.length = s.normals.length + N * (N / 2) * 6 ∧
    (createSphere M s).vertices.length = s.vertices.length + 120000 ∧
    (createSphere M s).normals.length = s.normals.length + 120000 := by
  simp only [createSphere, createSphereWith_eq, emitAll_vertices_length,
    emitAll_normals_length, length_sphereCells]
  exact ⟨by ring, by ring, trivial, trivial⟩

/-- C3. With `a = 7` and `r_step = 0.01`, 27 is the smallest `k` with
`a * (k * r_step)^2 ≥ 0.5`; in every sector the radial loop started at `r = 0` stops after
emitting exactly 27 cells, whatever the details count; `createHorn` with `D` sectors appends
`6 * 27 * D` positions and normals, and with `2 * D` sectors twice as many. -/
theorem createHorn_ring_count {α : Type} [LinearOrderedField α] [FloorRing α] (M : MathOps α) (transform : QMatrix4x4 α) (D : Nat)
    (s : Renderer α) :
    ((0.5 : α) ≤ 7 * ((27 : α) * 0.01) ^ 2 ∧
      ∀ k : Nat, k < 27 → (7 : α) * ((k : α) * 0.01) ^ 2 < 0.5) ∧
    (∀ angle1 angle2 : α,
      hornRings M transform angle1 angle2 0 s =
        (ringCells M transform angle1 angle2 0 27).foldl emit s ∧
      (ringCells M transform angle1 angle2 0 27).length = 27) ∧
    (createHorn M transform D s).vertices.length = s.vertices.length + 6 * 27 * D ∧
    (createHorn M transform D s).normals.length = s.normals.length + 6 * 27 * D ∧
    (createHorn M transform (2 * D : Nat) s).vertices.length =
      s.vertices.length + 2 * (6 * 27 * D) ∧
    (createHorn M transform (2 * D : Nat) s).normals.length =
      s.normals.length + 2 * (6 * 27 * D) := by
  refine ⟨⟨by norm_num, ?_⟩, ?_, ?_⟩
  · intro k hk
    have hk26 : (k : α) ≤ 26 := by
      have : k ≤ 26 := by omega
      exact_mod_cast this
    have hk0 : (0 : α) ≤ k := Nat.cast_nonneg k
    have h2 : (k : α) * k ≤ 26 * 26 := mul_le_mul hk26 hk26 hk0 (by norm_num)
    norm_num
    nlinarith
  · intro a1 a2
    exact ⟨by rw [foldl_emit_cells, hornRings_zero], length_ringCells M transform a1 a2 0 27⟩
  · simp only [createHorn_eq, emitAll_vertices_length, emitAll_normals_length,
      length_hornCells, Int.toNat_ofNat]
    omega

/-- C4. The positions `createGeometry` leaves are, entry for entry, 2 times the positions
that `createSphere` followed by `createHorns` (the horn of `transform1`, then the horn of
`transform2`) produce from empty buffers, and its normals are the normals those
generators produced. -/
theorem createGeometry_scales_positions {α : Type} [LinearOrderedField α] [FloorRing α] (M : MathOps α) (s : Renderer α) :
    createHorns M (createSphere M freshRenderer) =
      createHorn M (transform2 M) 100
        (createHorn M (transform1 M) 100 (createSphere M freshRenderer)) ∧
    (createGeometry M s).vertices =
      (createHorns M (createSphere M freshRenderer)).vertices.map
        (fun v => ⟨v.x * 2, v.y * 2, v.z * 2⟩) ∧
    (createGeometry M s).normals = (createHorns M (createSphere M freshRenderer)).normals := by
  refine ⟨by rw [createHorns], ?_, ?_⟩
  · rw [createGeometry_vertices, fresh_geometry_vertices, mulScalar_two]
  · rw [createGeometry_normals, fresh_geometry_normals]

/-- C5. `createGeometry` does not depend on the buffers it starts from: from any two
starting states it leaves the same `vertices` and `normals`, and calling it twice in
succession gives the state one call gives. -/
theorem createGeometry_idempotent {α : Type} [LinearOrderedField α] [FloorRing α] (M : MathOps α) (s s0 : Renderer α) :
    (createGeometry M s).vertices = (createGeometry M s0).vertices ∧
    (createGeometry M s).normals = (createGeometry M s0).normals ∧
    createGeometry M (createGeometry M s) = createGeometry M s := by
  simp only [createGeometry_eq]
  generalize allCells M = cs
  exact ⟨trivial, trivial, trivial⟩

/-- C6. With no surface bound, `render` leaves the renderer as it is (frame counter,
initialised flag, buffers, no further render scheduled), whatever `makeCurrent` would
answer; `setAnimating(window, false)` leads to such a state. -/
theorem render_without_surface {α : Type} [LinearOrderedField α] [FloorRing α] (M : MathOps α) (makeCurrent : Bool) (s : Renderer α)
    (h : s.m_surface = none) :
    render M makeCurrent s = s ∧
    (∀ window : Nat, render M makeCurrent (setAnimating s window false)
      = setAnimating s window false) := by
  refine ⟨?_, ?_⟩
  · simp [render, h]
  · intro w
    simp [render, setAnimating]

end Structural


/-! ## The cell found at a buffer position -/

section Positions

theorem take_drop_flatMap {α β : Type} (f : α → List β) (m : Nat) (hf : ∀ a, (f a).length = m) :
    ∀ (cs : List α) (k : Nat) (c : α), cs[k]? = some c →
      ((cs.flatMap f).drop (m * k)).take m = f c := by
  intro cs
  induction cs with
  | nil => intro k c h; simp at h
  | cons c0 cs ih =>
    intro k c h
    cases k with
    | zero =>
      simp only [List.getElem?_cons_zero, Option.some.injEq] at h
      subst h
      rw [List.flatMap_cons, Nat.mul_zero, List.drop_zero]
      exact List.take_left' (hf c0)
    | succ k =>
      rw [List.getElem?_cons_succ] at h
      have hlen : m * (k + 1) = (f c0).length + m * k := by rw [hf c0]; ring
      rw [List.flatMap_cons, hlen, List.drop_append]
      exact ih k c h

theorem emitAll_emitsCellAt {α : Type} (s : Renderer α) (cs : List (Cell α)) (k : Nat)
    (c : Cell α) (h : cs[k]? = some c) : EmitsCellAt s (emitAll s cs) k c := by
  unfold EmitsCellAt emitAll
  simp only [List.drop_append]
  exact ⟨take_drop_flatMap cellVertices 6 (fun _ => rfl) cs k c h,
    take_drop_flatMap cellNormals 6 (fun _ => rfl) cs k c h⟩

theorem emitsCellAt_unique {α : Type} (s0 s : Renderer α) (k : Nat) (c d : Cell α)
    (hc : EmitsCellAt s0 s k c) (hd : EmitsCellAt s0 s k d) : c = d := by
  have hv : cellVertices c = cellVertices d := hc.1.symm.trans hd.1
  have hn : cellNormals c = cellNormals d := hc.2.symm.trans hd.2
  cases c
  cases d
  simp only [cellVertices, cellNormals, List.cons.injEq, and_true] at hv hn
  simp only [Cell.mk.injEq]
  exact ⟨hv.1, hv.2.1, hv.2.2.1, hv.2.2.2.2.1, hn.1⟩

theorem getElem?_flatMap_blocks {β : Type} (g : Nat → List β) (m : Nat)
    (hg : ∀ i, (g i).length = m) :
    ∀ (n a i j : Nat), i < n → j < m →
      ((List.range' a n).flatMap g)[i * m + j]? = (g (a + i))[j]? := by
  intro n
  induction n with
  | zero => intro a i j hi; omega
  | succ n ih =>
    intro a i j hi hj
    rw [List.range'_succ, List.flatMap_cons]
    cases i with
    | zero =>
      rw [Nat.zero_mul, Nat.zero_add, Nat.add_zero]
      exact List.getElem?_append_left (by rw [hg a]; exact hj)
    | succ i =>
      have hle : (g a).length ≤ (i + 1) * m + j := by
        rw [hg a, Nat.succ_mul]
        omega
      rw [List.getElem?_append_right hle]
      have hidx : (i + 1) * m + j - (g a).length = i * m + j := by
        rw [hg a, Nat.succ_mul]
        omega
      rw [hidx, ih (a + 1) i j (by omega) hj]
      have ha : a + 1 + i = a + (i + 1) := by omega
      rw [ha]

theorem sphereCells_getElem? {α : Type} [LinearOrderedField α] (M : MathOps α)
    (N i j : Nat) (hi : i < N) (hj : j < N / 2) :
    (sphereCells M N)[i * (N / 2) + j]? = some (sphereCell M N i j) := by
  unfold sphereCells
  rw [List.range_eq_range', getElem?_flatMap_blocks _ (N / 2) (by intro k; simp) N 0 i j hi hj]
  simp [hj]

theorem ringCells_getElem? {α : Type} [LinearOrderedField α] (M : MathOps α)
    (t : QMatrix4x4 α) (a1 a2 : α) (k : Nat) (hk : k < 27) :
    (ringCells M t a1 a2 0 27)[k]? =
      some (hornCell M t a1 a2 ((k : α) * 0.01) ((k : α) * 0.01 + 0.01)) := by
  unfold ringCells
  rw [List.getElem?_map, List.getElem?_range' _ _ hk]
  simp

theorem hornCells_getElem? {α : Type} [LinearOrderedField α] (M : MathOps α)
    (t : QMatrix4x4 α) (D : Int) (i k : Nat) (hi : i < D.toNat) (hk : k < 27) :
    (hornCells M t D)[i * 27 + k]? =
      some (hornCell M t (((wrapInt (i * 2) : Int) : α) * Pi / (D : α))
        (((wrapInt ((i + 1) * 2) : Int) : α) * Pi / (D : α))
        ((k : α) * 0.01) ((k : α) * 0.01 + 0.01)) := by
  unfold hornCells
  rw [List.range_eq_range',
    getElem?_flatMap_blocks _ 27 (by intro j; exact length_ringCells M t _ _ 0 27)
      D.toNat 0 i k hi hk, Nat.zero_add]
  exact ringCells_getElem? M t _ _ k hk

/-- Every cell `(i, j)` of the loops of `createSphere` is in the buffers, at cell
position `i * (NumSectors / 2) + j` past the buffers the generator started from. -/
theorem createSphereWith_emits {α : Type} [LinearOrderedField α] (M : MathOps α)
    (N : Nat) (s : Renderer α) (i j : Nat) (hi : i < N) (hj : j < N / 2) :
    EmitsCellAt s (createSphereWith M N s) (i * (N / 2) + j) (sphereCell M N i j) := by
  rw [createSphereWith_eq]
  exact emitAll_emitsCellAt s _ _ _ (sphereCells_getElem? M N i j hi hj)

theorem createHorns_eq {α : Type} [LinearOrderedField α] [FloorRing α] (M : MathOps α)
    (s : Renderer α) :
    createHorns M s =
      emitAll s (hornCells M (transform1 M) 100 ++ hornCells M (transform2 M) 100) := by
  rw [createHorns, createHorn_eq, createHorn_eq, emitAll_append]

/-- Ring `k` of sector `i` of the first horn of `createHorns` is in the buffers at cell
position `i * 27 + k`, that of the second horn at `2700 + (i * 27 + k)`. -/
theorem createHorns_emits {α : Type} [LinearOrderedField α] [FloorRing α] (M : MathOps α)
    (s : Renderer α) (i k : Nat) (hi : i < 100) (hk : k < 27) :
    EmitsCellAt s (createHorns M s) (i * 27 + k)
      (hornCell M (transform1 M) (((wrapInt (i * 2) : Int) : α) * Pi / ((100 : Int) : α))
        (((wrapInt ((i + 1) * 2) : Int) : α) * Pi / ((100 : Int) : α))
        ((k : α) * 0.01) ((k : α) * 0.01 + 0.01)) ∧
    EmitsCellAt s (createHorns M s) (2700 + (i * 27 + k))
      (hornCell M (transform2 M) (((wrapInt (i * 2) : Int) : α) * Pi / ((100 : Int) : α))
        (((wrapInt ((i + 1) * 2) : Int) : α) * Pi / ((100 : Int) : α))
        ((k : α) * 0.01) ((k : α) * 0.01 + 0.01)) := by
  have h100 : i < (100 : Int).toNat := by
    have : (100 : Int).toNat = 100 := rfl
    omega
  have hlen : (hornCells M (transform1 M) 100).length = 2700 := by
    rw [length_hornCells]
    rfl
  rw [createHorns_eq]
  constructor
  · apply emitAll_emitsCellAt
    rw [List.getElem?_append_left (by rw [hlen]; omega)]
    exact hornCells_getElem? M (transform1 M) 100 i k h100 hk
  · apply emitAll_emitsCellAt
    rw [List.getElem?_append_right (by rw [hlen]; omega), hlen, Nat.add_sub_cancel_left]
    exact hornCells_getElem? M (transform2 M) 100 i k h100 hk

end Positions

/-! ## Exact real arithmetic -/

section RealVectors

theorem wrapInt_of_small (n : Int) (h0 : -2147483648 ≤ n) (h1 : n < 2147483648) :
    wrapInt n = n := by
  unfold wrapInt
  omega

theorem lengthSquared_nonneg (v : QVector3D ℝ) : 0 ≤ v.lengthSquared := by
  unfold QVector3D.lengthSquared
  nlinarith [mul_self_nonneg v.x, mul_self_nonneg v.y, mul_self_nonneg v.z]

theorem lengthSquared_pos_of_dot_ne (v p : QVector3D ℝ) (h : v.dotProduct p ≠ 0) :
    0 < v.lengthSquared := by
  rcases (lengthSquared_nonneg v).lt_or_eq with hlt | heq
  · exact hlt
  · exfalso
    apply h
    unfold QVector3D.lengthSquared at heq
    have hx : v.x = 0 := by
      have : v.x * v.x = 0 := by
        nlinarith [mul_self_nonneg v.x, mul_self_nonneg v.y, mul_self_nonneg v.z]
      exact mul_self_eq_zero.mp this
    have hy : v.y = 0 := by
      have : v.y * v.y = 0 := by
        nlinarith [mul_self_nonneg v.x, mul_self_nonneg v.y, mul_self_nonneg v.z]
      exact mul_self_eq_zero.mp this
    have hz : v.z = 0 := by
      have : v.z * v.z = 0 := by
        nlinarith [mul_self_nonneg v.x, mul_self_nonneg v.y, mul_self_nonneg v.z]
      exact mul_self_eq_zero.mp this
    simp [QVector3D.dotProduct, hx, hy, hz]

theorem normalized_real (v : QVector3D ℝ) (h : 0 < v.lengthSquared) :
    QVector3D.normalized ⟨Real.sin, Real.cos, Real.sqrt, Real.pi⟩ v =
      ⟨v.x / Real.sqrt v.lengthSquared, v.y / Real.sqrt v.lengthSquared,
        v.z / Real.sqrt v.lengthSquared⟩ := by
  unfold QVector3D.normalized
  rw [if_neg (ne_of_gt h)]

theorem lengthSquared_div (v : QVector3D ℝ) (s : ℝ) :
    QVector3D.lengthSquared (⟨v.x / s, v.y / s, v.z / s⟩ : QVector3D ℝ)
      = v.lengthSquared / (s * s) := by
  simp only [QVector3D.lengthSquared]
  ring

theorem lengthSquared_normalized (v : QVector3D ℝ) (h : 0 < v.lengthSquared) :
    (QVector3D.normalized ⟨Real.sin, Real.cos, Real.sqrt, Real.pi⟩ v).lengthSquared = 1 := by
  rw [normalized_real v h, lengthSquared_div, Real.mul_self_sqrt h.le]
  exact div_self (ne_of_gt h)

theorem dot_normalized_left (v p : QVector3D ℝ) (h : 0 < v.lengthSquared) :
    (QVector3D.normalized ⟨Real.sin, Real.cos, Real.sqrt, Real.pi⟩ v).dotProduct p =
      v.dotProduct p / Real.sqrt v.lengthSquared := by
  rw [normalized_real v h]
  simp only [QVector3D.dotProduct]
  ring

theorem dot_normalized_neg (v p : QVector3D ℝ) (h : v.dotProduct p < 0) :
    (QVector3D.normalized ⟨Real.sin, Real.cos, Real.sqrt, Real.pi⟩ v).dotProduct p < 0 := by
  have hpos := lengthSquared_pos_of_dot_ne v p (ne_of_lt h)
  rw [dot_normalized_left v p hpos]
  exact div_neg_of_neg_of_pos h (Real.sqrt_pos.mpr hpos)

theorem dotProduct_comm (v w : QVector3D ℝ) : v.dotProduct w = w.dotProduct v := by
  simp only [QVector3D.dotProduct]
  ring

theorem dot_normalized_pos (v w : QVector3D ℝ) (h : 0 < v.dotProduct w) :
    0 < (QVector3D.normalized ⟨Real.sin, Real.cos, Real.sqrt, Real.pi⟩ v).dotProduct
      (QVector3D.normalized ⟨Real.sin, Real.cos, Real.sqrt, Real.pi⟩ w) := by
  have hv := lengthSquared_pos_of_dot_ne v w (ne_of_gt h)
  have hw := lengthSquared_pos_of_dot_ne w v (by rw [dotProduct_comm]; exact ne_of_gt h)
  rw [dot_normalized_left v _ hv, dotProduct_comm, dot_normalized_left w v hw,
    dotProduct_comm]
  exact div_pos (div_pos h (Real.sqrt_pos.mpr hw)) (Real.sqrt_pos.mpr hv)

/-- Lagrange's identity: the cross product is no longer than the product of the lengths. -/
theorem lengthSquared_cross_le (u w : QVector3D ℝ) :
    (u.crossProduct w).lengthSquared ≤ u.lengthSquared * w.lengthSquared := by
  have hid : (u.crossProduct w).lengthSquared + u.dotProduct w * u.dotProduct w
      = u.lengthSquared * w.lengthSquared := by
    simp only [QVector3D.lengthSquared, QVector3D.crossProduct, QVector3D.dotProduct]
    ring
  nlinarith [mul_self_nonneg (u.dotProduct w)]

end RealVectors


/-! ## The sphere in exact real arithmetic -/

section RealSphere

theorem Pi_pos : (0 : ℝ) < Pi := by
  unfold Pi
  norm_num

theorem Pi_lt_pi : (Pi : ℝ) < Real.pi := by
  have h := Real.pi_gt_d6
  unfold Pi
  linarith

/-- The angles of `createSphere` for indices below 200: multiples of `Pi / 100`. -/
theorem sphere_angle (k : Nat) (hk : k ≤ 200) :
    ((wrapInt ((k : Int) * 2) : Int) : ℝ) * Pi / ((200 : Nat) : ℝ) = (k : ℝ) * (Pi / 100) := by
  rw [wrapInt_of_small _ (by omega) (by omega)]
  push_cast
  ring

theorem sphere_angle_succ (k : Nat) (hk : k < 200) :
    ((wrapInt (((k : Int) + 1) * 2) : Int) : ℝ) * Pi / ((200 : Nat) : ℝ)
      = ((k : ℝ) + 1) * (Pi / 100) := by
  rw [wrapInt_of_small _ (by omega) (by omega)]
  push_cast
  ring

theorem sphereCell_200 (M : MathOps ℝ) (i j : Nat) (hi : i < 200) (hj : j < 100) :
    sphereCell M 200 i j =
      sphereQuad M ((i : ℝ) * (Pi / 100)) (((i : ℝ) + 1) * (Pi / 100))
        ((j : ℝ) * (Pi / 100)) (((j : ℝ) + 1) * (Pi / 100)) (decide (j + 1 = 100)) := by
  unfold sphereCell
  simp only [sphere_angle i (by omega), sphere_angle j (by omega),
    sphere_angle_succ i hi, sphere_angle_succ j (by omega)]

theorem sin_step_pos : 0 < Real.sin (Pi / 100) := by
  apply Real.sin_pos_of_pos_of_lt_pi
  · have := Pi_pos
    linarith
  · have := Pi_lt_pi
    have := Pi_pos
    linarith

theorem sin_band_pos (k : Nat) (h0 : 0 < k) (h1 : k ≤ 100) :
    0 < Real.sin ((k : ℝ) * (Pi / 100)) := by
  have hk0 : (1 : ℝ) ≤ k := by exact_mod_cast h0
  have hk1 : (k : ℝ) ≤ 100 := by exact_mod_cast h1
  have hP := Pi_pos
  have hP2 := Pi_lt_pi
  apply Real.sin_pos_of_pos_of_lt_pi
  · positivity
  · nlinarith

/-- For the general formula the cross product has the same dot product with all four
corners of the cell. -/
theorem sphere_cross_dot (θ1 θ2 φ3 φ4 : ℝ) (p : QVector3D ℝ)
    (hp : p = fromSph ⟨Real.sin, Real.cos, Real.sqrt, Real.pi⟩ 0.30 θ1 φ3 ∨
      p = fromSph ⟨Real.sin, Real.cos, Real.sqrt, Real.pi⟩ 0.30 θ1 φ4 ∨
      p = fromSph ⟨Real.sin, Real.cos, Real.sqrt, Real.pi⟩ 0.30 θ2 φ4 ∨
      p = fromSph ⟨Real.sin, Real.cos, Real.sqrt, Real.pi⟩ 0.30 θ2 φ3) :
    (((fromSph ⟨Real.sin, Real.cos, Real.sqrt, Real.pi⟩ 0.30 θ1 φ3).sub
        (fromSph ⟨Real.sin, Real.cos, Real.sqrt, Real.pi⟩ 0.30 θ1 φ4)).crossProduct
      ((fromSph ⟨Real.sin, Real.cos, Real.sqrt, Real.pi⟩ 0.30 θ2 φ4).sub
        (fromSph ⟨Real.sin, Real.cos, Real.sqrt, Real.pi⟩ 0.30 θ1 φ4))).dotProduct p
      = -(0.30 ^ 3 * Real.sin φ4 * Real.sin (θ2 - θ1) * Real.sin (φ4 - φ3)) := by
  rcases hp with rfl | rfl | rfl | rfl <;>
  · simp only [fromSph, QVector3D.sub, QVector3D.crossProduct, QVector3D.dotProduct,
      Real.sin_sub]
    ring

/-- For the final-band formula likewise. -/
theorem sphere_cross_dot_last (θ1 θ2 φ3 φ4 : ℝ) (p : QVector3D ℝ)
    (hp : p = fromSph ⟨Real.sin, Real.cos, Real.sqrt, Real.pi⟩ 0.30 θ1 φ3 ∨
      p = fromSph ⟨Real.sin, Real.cos, Real.sqrt, Real.pi⟩ 0.30 θ1 φ4 ∨
      p = fromSph ⟨Real.sin, Real.cos, Real.sqrt, Real.pi⟩ 0.30 θ2 φ4 ∨
      p = fromSph ⟨Real.sin, Real.cos, Real.sqrt, Real.pi⟩ 0.30 θ2 φ3) :
    (((fromSph ⟨Real.sin, Real.cos, Real.sqrt, Real.pi⟩ 0.30 θ1 φ3).sub
        (fromSph ⟨Real.sin, Real.cos, Real.sqrt, Real.pi⟩ 0.30 θ2 φ3)).crossProduct
      ((fromSph ⟨Real.sin, Real.cos, Real.sqrt, Real.pi⟩ 0.30 θ1 φ3).sub
        (fromSph ⟨Real.sin, Real.cos, Real.sqrt, Real.pi⟩ 0.30 θ1 φ4))).dotProduct p
      = -(0.30 ^ 3 * Real.sin φ3 * Real.sin (θ2 - θ1) * Real.sin (φ4 - φ3)) := by
  rcases hp with rfl | rfl | rfl | rfl <;>
  · simp only [fromSph, QVector3D.sub, QVector3D.crossProduct, QVector3D.dotProduct,
      Real.sin_sub]
    ring

end RealSphere


section RealSphereCells

/-- A cell of the sphere computed from angles whose sines are positive as stated: the
emitted normal is the normalised cross product, of unit length, and its dot product with
each of the four corners is negative. -/
theorem sphereQuad_inward (θ1 θ2 φ3 φ4 : ℝ) (b : Bool)
    (hθ : 0 < Real.sin (θ2 - θ1)) (hφ : 0 < Real.sin (φ4 - φ3))
    (hs : 0 < Real.sin (if b then φ3 else φ4)) :
    (sphereQuad ⟨Real.sin, Real.cos, Real.sqrt, Real.pi⟩ θ1 θ2 φ3 φ4 b).n.lengthSquared = 1 ∧
    ∀ p : QVector3D ℝ,
      (p = (sphereQuad ⟨Real.sin, Real.cos, Real.sqrt, Real.pi⟩ θ1 θ2 φ3 φ4 b).p1 ∨
       p = (sphereQuad ⟨Real.sin, Real.cos, Real.sqrt, Real.pi⟩ θ1 θ2 φ3 φ4 b).p2 ∨
       p = (sphereQuad ⟨Real.sin, Real.cos, Real.sqrt, Real.pi⟩ θ1 θ2 φ3 φ4 b).p3 ∨
       p = (sphereQuad ⟨Real.sin, Real.cos, Real.sqrt, Real.pi⟩ θ1 θ2 φ3 φ4 b).p4) →
      (sphereQuad ⟨Real.sin, Real.cos, Real.sqrt, Real.pi⟩ θ1 θ2 φ3 φ4 b).n.dotProduct p
        < 0 := by
  cases b with
  | false =>
    simp only [Bool.false_eq_true, if_false] at hs
    have hneg : ∀ p : QVector3D ℝ,
        (p = fromSph ⟨Real.sin, Real.cos, Real.sqrt, Real.pi⟩ 0.30 θ1 φ3 ∨
         p = fromSph ⟨Real.sin, Real.cos, Real.sqrt, Real.pi⟩ 0.30 θ1 φ4 ∨
         p = fromSph ⟨Real.sin, Real.cos, Real.sqrt, Real.pi⟩ 0.30 θ2 φ4 ∨
         p = fromSph ⟨Real.sin, Real.cos, Real.sqrt, Real.pi⟩ 0.30 θ2 φ3) →
        (((fromSph ⟨Real.sin, Real.cos, Real.sqrt, Real.pi⟩ 0.30 θ1 φ3).sub
            (fromSph ⟨Real.sin, Real.cos, Real.sqrt, Real.pi⟩ 0.30 θ1 φ4)).crossProduct
          ((fromSph ⟨Real.sin, Real.cos, Real.sqrt, Real.pi⟩ 0.30 θ2 φ4).sub
            (fromSph ⟨Real.sin, Real.cos, Real.sqrt, Real.pi⟩ 0.30 θ1 φ4))).dotProduct p
          < 0 := by
      intro p hp
      rw [sphere_cross_dot θ1 θ2 φ3 φ4 p hp]
      have : 0 < (0.30 : ℝ) ^ 3 * Real.sin φ4 * Real.sin (θ2 - θ1) * Real.sin (φ4 - φ3) := by
        positivity
      linarith
    refine ⟨?_, ?_⟩
    · simp only [sphereQuad, Bool.false_eq_true, if_false, QVector3D.normal]
      exact lengthSquared_normalized _
        (lengthSquared_pos_of_dot_ne _ _ (ne_of_lt (hneg _ (Or.inl rfl))))
    · intro p hp
      simp only [sphereQuad, Bool.false_eq_true, if_false, QVector3D.normal] at hp ⊢
      exact dot_normalized_neg _ _ (hneg p hp)
  | true =>
    simp only [if_true] at hs
    have hneg : ∀ p : QVector3D ℝ,
        (p = fromSph ⟨Real.sin, Real.cos, Real.sqrt, Real.pi⟩ 0.30 θ1 φ3 ∨
         p = fromSph ⟨Real.sin, Real.cos, Real.sqrt, Real.pi⟩ 0.30 θ1 φ4 ∨
         p = fromSph ⟨Real.sin, Real.cos, Real.sqrt, Real.pi⟩ 0.30 θ2 φ4 ∨
         p = fromSph ⟨Real.sin, Real.cos, Real.sqrt, Real.pi⟩ 0.30 θ2 φ3) →
        (((fromSph ⟨Real.sin, Real.cos, Real.sqrt, Real.pi⟩ 0.30 θ1 φ3).sub
            (fromSph ⟨Real.sin, Real.cos, Real.sqrt, Real.pi⟩ 0.30 θ2 φ3)).crossProduct
          ((fromSph ⟨Real.sin, Real.cos, Real.sqrt, Real.pi⟩ 0.30 θ1 φ3).sub
            (fromSph ⟨Real.sin, Real.cos, Real.sqrt, Real.pi⟩ 0.30 θ1 φ4))).dotProduct p
          < 0 := by
      intro p hp
      rw [sphere_cross_dot_last θ1 θ2 φ3 φ4 p hp]
      have : 0 < (0.30 : ℝ) ^ 3 * Real.sin φ3 * Real.sin (θ2 - θ1) * Real.sin (φ4 - φ3) := by
        positivity
      linarith
    refine ⟨?_, ?_⟩
    · simp only [sphereQuad, if_true, QVector3D.normal]
      exact lengthSquared_normalized _
        (lengthSquared_pos_of_dot_ne _ _ (ne_of_lt (hneg _ (Or.inl rfl))))
    · intro p hp
      simp only [sphereQuad, if_true, QVector3D.normal] at hp ⊢
      exact dot_normalized_neg _ _ (hneg p hp)

/-- Every cell `createSphere` generates: unit normal, negative dot product with the four
corners. -/
theorem sphereCell_inward (i j : Nat) (hi : i < 200) (hj : j < 100) :
    (sphereCell ⟨Real.sin, Real.cos, Real.sqrt, Real.pi⟩ 200 i j).n.lengthSquared = 1 ∧
    ∀ p : QVector3D ℝ,
      (p = (sphereCell ⟨Real.sin, Real.cos, Real.sqrt, Real.pi⟩ 200 i j).p1 ∨
       p = (sphereCell ⟨Real.sin, Real.cos, Real.sqrt, Real.pi⟩ 200 i j).p2 ∨
       p = (sphereCell ⟨Real.sin, Real.cos, Real.sqrt, Real.pi⟩ 200 i j).p3 ∨
       p = (sphereCell ⟨Real.sin, Real.cos, Real.sqrt, Real.pi⟩ 200 i j).p4) →
      (sphereCell ⟨Real.sin, Real.cos, Real.sqrt, Real.pi⟩ 200 i j).n.dotProduct p < 0 := by
  rw [sphereCell_200 _ i j hi hj]
  apply sphereQuad_inward
  · have : ((i : ℝ) + 1) * (Pi / 100) - (i : ℝ) * (Pi / 100) = Pi / 100 := by ring
    rw [this]
    exact sin_step_pos
  · have : ((j : ℝ) + 1) * (Pi / 100) - (j : ℝ) * (Pi / 100) = Pi / 100 := by ring
    rw [this]
    exact sin_step_pos
  · by_cases hl : j + 1 = 100
    · simp only [hl, decide_True, if_true]
      exact sin_band_pos j (by omega) (by omega)
    · simp only [hl, decide_False, Bool.false_eq_true, if_false]
      have h := sin_band_pos (j + 1) (by omega) (by omega)
      push_cast at h
      exact h

end RealSphereCells


section RealSeam

/-- The dot product of the final-band cross product of one cell with the general cross
product of another cell of the same longitude column. -/
theorem seam_cross_dot (θ1 θ2 φ1 φ2 φ3 φ4 : ℝ) :
    (((fromSph ⟨Real.sin, Real.cos, Real.sqrt, Real.pi⟩ 0.30 θ1 φ3).sub
        (fromSph ⟨Real.sin, Real.cos, Real.sqrt, Real.pi⟩ 0.30 θ2 φ3)).crossProduct
      ((fromSph ⟨Real.sin, Real.cos, Real.sqrt, Real.pi⟩ 0.30 θ1 φ3).sub
        (fromSph ⟨Real.sin, Real.cos, Real.sqrt, Real.pi⟩ 0.30 θ1 φ4))).dotProduct
    (((fromSph ⟨Real.sin, Real.cos, Real.sqrt, Real.pi⟩ 0.30 θ1 φ1).sub
        (fromSph ⟨Real.sin, Real.cos, Real.sqrt, Real.pi⟩ 0.30 θ1 φ2)).crossProduct
      ((fromSph ⟨Real.sin, Real.cos, Real.sqrt, Real.pi⟩ 0.30 θ2 φ2).sub
        (fromSph ⟨Real.sin, Real.cos, Real.sqrt, Real.pi⟩ 0.30 θ1 φ2)))
      = 0.30 ^ 4 * Real.sin φ2 * Real.sin φ3 *
          (((Real.sin θ1 - Real.sin θ2) ^ 2 + (Real.cos θ1 - Real.cos θ2) ^ 2) *
              ((Real.cos φ3 - Real.cos φ4) * (Real.cos φ1 - Real.cos φ2)) +
            Real.sin (θ2 - θ1) ^ 2 *
              ((Real.sin φ3 - Real.sin φ4) * (Real.sin φ1 - Real.sin φ2))) := by
  simp only [fromSph, QVector3D.sub, QVector3D.crossProduct, QVector3D.dotProduct,
    Real.sin_sub]
  ring

theorem cos_band_lt (x y : ℝ) (hx : 0 ≤ x) (hxy : x < y) (hy : y ≤ Pi) :
    Real.cos y < Real.cos x :=
  Real.cos_lt_cos_of_nonneg_of_le_pi hx (le_trans hy Pi_lt_pi.le) hxy

theorem sin_band_lt (x y : ℝ) (hx : 2 ≤ x) (hxy : x < y) (hy : y ≤ Pi) :
    Real.sin y < Real.sin x := by
  have h4 := Real.pi_le_four
  have hP := Pi_lt_pi
  rw [← Real.sin_pi_sub y, ← Real.sin_pi_sub x]
  apply Real.sin_lt_sin_of_lt_of_le_pi_div_two
  · linarith
  · linarith
  · linarith

/-- The normals of the last two cells of a longitude column have positive dot product. -/
theorem seam_quads (θ1 θ2 : ℝ) (hθ : 0 < Real.sin (θ2 - θ1)) :
    0 < (sphereQuad ⟨Real.sin, Real.cos, Real.sqrt, Real.pi⟩ θ1 θ2
          (99 * (Pi / 100)) (100 * (Pi / 100)) true).n.dotProduct
        (sphereQuad ⟨Real.sin, Real.cos, Real.sqrt, Real.pi⟩ θ1 θ2
          (98 * (Pi / 100)) (99 * (Pi / 100)) false).n := by
  simp only [sphereQuad, if_true, Bool.false_eq_true, if_false, QVector3D.normal]
  apply dot_normalized_pos
  rw [seam_cross_dot]
  have hP := Pi_pos
  have hs99 : 0 < Real.sin (99 * (Pi / 100)) := by
    have h := sin_band_pos 99 (by norm_num) (by norm_num)
    push_cast at h
    exact h
  have hc1 : Real.cos (100 * (Pi / 100)) < Real.cos (99 * (Pi / 100)) :=
    cos_band_lt _ _ (by positivity) (by linarith) (by linarith)
  have hc2 : Real.cos (99 * (Pi / 100)) < Real.cos (98 * (Pi / 100)) :=
    cos_band_lt _ _ (by positivity) (by linarith) (by linarith)
  have hP3 : (3 : ℝ) < Pi := by unfold Pi; norm_num
  have hs1 : Real.sin (100 * (Pi / 100)) < Real.sin (99 * (Pi / 100)) :=
    sin_band_lt _ _ (by linarith) (by linarith) (by linarith)
  have hs2 : Real.sin (99 * (Pi / 100)) < Real.sin (98 * (Pi / 100)) :=
    sin_band_lt _ _ (by linarith) (by linarith) (by linarith)
  have hchord : 0 ≤ (Real.sin θ1 - Real.sin θ2) ^ 2 + (Real.cos θ1 - Real.cos θ2) ^ 2 := by
    positivity
  have hcc : 0 < (Real.cos (99 * (Pi / 100)) - Real.cos (100 * (Pi / 100))) *
      (Real.cos (98 * (Pi / 100)) - Real.cos (99 * (Pi / 100))) :=
    mul_pos (by linarith) (by linarith)
  have hss : 0 < (Real.sin (99 * (Pi / 100)) - Real.sin (100 * (Pi / 100))) *
      (Real.sin (98 * (Pi / 100)) - Real.sin (99 * (Pi / 100))) :=
    mul_pos (by linarith) (by linarith)
  have hsq : 0 < Real.sin (θ2 - θ1) ^ 2 := by positivity
  have hbr : 0 < ((Real.sin θ1 - Real.sin θ2) ^ 2 + (Real.cos θ1 - Real.cos θ2) ^ 2) *
        ((Real.cos (99 * (Pi / 100)) - Real.cos (100 * (Pi / 100))) *
          (Real.cos (98 * (Pi / 100)) - Real.cos (99 * (Pi / 100)))) +
      Real.sin (θ2 - θ1) ^ 2 *
        ((Real.sin (99 * (Pi / 100)) - Real.sin (100 * (Pi / 100))) *
          (Real.sin (98 * (Pi / 100)) - Real.sin (99 * (Pi / 100)))) :=
    add_pos_of_nonneg_of_pos (mul_nonneg hchord hcc.le) (mul_pos hsq hss)
  positivity

theorem seam_cells (i : Nat) (hi : i < 200) :
    0 < (sphereCell ⟨Real.sin, Real.cos, Real.sqrt, Real.pi⟩ 200 i 99).n.dotProduct
        (sphereCell ⟨Real.sin, Real.cos, Real.sqrt, Real.pi⟩ 200 i 98).n := by
  rw [sphereCell_200 _ i 99 hi (by norm_num), sphereCell_200 _ i 98 hi (by norm_num)]
  have e1 : ((99 : Nat) : ℝ) = 99 := by norm_num
  have e2 : ((99 : Nat) : ℝ) + 1 = 100 := by norm_num
  have e3 : ((98 : Nat) : ℝ) = 98 := by norm_num
  have e4 : ((98 : Nat) : ℝ) + 1 = 99 := by norm_num
  rw [e2, e4, e1, e3]
  have d1 : decide (99 + 1 = 100) = true := by decide
  have d2 : decide (98 + 1 = 100) = false := by decide
  rw [d1, d2]
  apply seam_quads
  have : ((i : ℝ) + 1) * (Pi / 100) - (i : ℝ) * (Pi / 100) = Pi / 100 := by ring
  rw [this]
  exact sin_step_pos

/-- The vector `normalize(p1 - p2) x (p3 - p2)` of a sphere cell is shorter than 1. -/
theorem sphere_unnormalised_short (θ1 θ2 φ3 φ4 : ℝ) :
    ((QVector3D.normalized ⟨Real.sin, Real.cos, Real.sqrt, Real.pi⟩
        ((fromSph ⟨Real.sin, Real.cos, Real.sqrt, Real.pi⟩ 0.30 θ1 φ3).sub
          (fromSph ⟨Real.sin, Real.cos, Real.sqrt, Real.pi⟩ 0.30 θ1 φ4))).crossProduct
      ((fromSph ⟨Real.sin, Real.cos, Real.sqrt, Real.pi⟩ 0.30 θ2 φ4).sub
        (fromSph ⟨Real.sin, Real.cos, Real.sqrt, Real.pi⟩ 0.30 θ1 φ4))).lengthSquared
      < 1 := by
  have hle := lengthSquared_cross_le
    (QVector3D.normalized ⟨Real.sin, Real.cos, Real.sqrt, Real.pi⟩
        ((fromSph ⟨Real.sin, Real.cos, Real.sqrt, Real.pi⟩ 0.30 θ1 φ3).sub
          (fromSph ⟨Real.sin, Real.cos, Real.sqrt, Real.pi⟩ 0.30 θ1 φ4)))
    ((fromSph ⟨Real.sin, Real.cos, Real.sqrt, Real.pi⟩ 0.30 θ2 φ4).sub
        (fromSph ⟨Real.sin, Real.cos, Real.sqrt, Real.pi⟩ 0.30 θ1 φ4))
  have hu : (QVector3D.normalized ⟨Real.sin, Real.cos, Real.sqrt, Real.pi⟩
        ((fromSph ⟨Real.sin, Real.cos, Real.sqrt, Real.pi⟩ 0.30 θ1 φ3).sub
          (fromSph ⟨Real.sin, Real.cos, Real.sqrt, Real.pi⟩ 0.30 θ1 φ4))).lengthSquared
      ≤ 1 := by
    rcases (lengthSquared_nonneg ((fromSph ⟨Real.sin, Real.cos, Real.sqrt, Real.pi⟩ 0.30 θ1 φ3).sub
          (fromSph ⟨Real.sin, Real.cos, Real.sqrt, Real.pi⟩ 0.30 θ1 φ4))).lt_or_eq with h | h
    · exact (lengthSquared_normalized _ h).le
    · unfold QVector3D.normalized
      rw [if_pos h.symm, ← h]
      norm_num
  have hw : ((fromSph ⟨Real.sin, Real.cos, Real.sqrt, Real.pi⟩ 0.30 θ2 φ4).sub
        (fromSph ⟨Real.sin, Real.cos, Real.sqrt, Real.pi⟩ 0.30 θ1 φ4)).lengthSquared
      ≤ 0.72 := by
    simp only [fromSph, QVector3D.sub, QVector3D.lengthSquared]
    have hs := Real.sin_sq_add_cos_sq φ4
    have h1 := Real.sin_sq_add_cos_sq θ1
    have h2 := Real.sin_sq_add_cos_sq θ2
    have hS : Real.sin φ4 ^ 2 ≤ 1 := by nlinarith [sq_nonneg (Real.cos φ4)]
    have hS0 : 0 ≤ Real.sin φ4 ^ 2 := sq_nonneg _
    have hchord : (Real.cos θ2 - Real.cos θ1) ^ 2 + (Real.sin θ2 - Real.sin θ1) ^ 2 ≤ 4 := by
      nlinarith [sq_nonneg (Real.cos θ2 + Real.cos θ1), sq_nonneg (Real.sin θ2 + Real.sin θ1)]
    have hchord0 : 0 ≤ (Real.cos θ2 - Real.cos θ1) ^ 2 + (Real.sin θ2 - Real.sin θ1) ^ 2 := by
      positivity
    have hprod : Real.sin φ4 ^ 2 *
        ((Real.cos θ2 - Real.cos θ1) ^ 2 + (Real.sin θ2 - Real.sin θ1) ^ 2) ≤ 1 * 4 :=
      mul_le_mul hS hchord hchord0 (by norm_num)
    nlinarith
  have hw0 := lengthSquared_nonneg ((fromSph ⟨Real.sin, Real.cos, Real.sqrt, Real.pi⟩ 0.30 θ2 φ4).sub
        (fromSph ⟨Real.sin, Real.cos, Real.sqrt, Real.pi⟩ 0.30 θ1 φ4))
  have hu0 := lengthSquared_nonneg (QVector3D.normalized ⟨Real.sin, Real.cos, Real.sqrt, Real.pi⟩
        ((fromSph ⟨Real.sin, Real.cos, Real.sqrt, Real.pi⟩ 0.30 θ1 φ3).sub
          (fromSph ⟨Real.sin, Real.cos, Real.sqrt, Real.pi⟩ 0.30 θ1 φ4)))
  nlinarith [mul_le_mul hu hw hw0 (by norm_num : (0 : ℝ) ≤ 1)]

end RealSeam


section RealHorn

/-- Both horn transforms in exact real arithmetic: a rotation about the y axis by
`angle` degrees scaled by 0.3, followed by a translation. -/
theorem horn_transform_real (tx angle : ℝ) (hangle : angle ≠ 0) :
    (((QMatrix4x4.identity.translate tx 0 0.3).rotate
        ⟨Real.sin, Real.cos, Real.sqrt, Real.pi⟩ angle 0 1 0).scale 0.3 0.3 0.3
      : QMatrix4x4 ℝ) =
      ⟨Real.cos (angle * Real.pi / 180) * 0.3, 0, Real.sin (angle * Real.pi / 180) * 0.3, tx,
       0, 0.3, 0, 0,
       -Real.sin (angle * Real.pi / 180) * 0.3, 0, Real.cos (angle * Real.pi / 180) * 0.3, 0.3,
       0, 0, 0, 1⟩ := by
  simp [QMatrix4x4.identity, QMatrix4x4.translate, QMatrix4x4.rotate, QMatrix4x4.scale,
    QMatrix4x4.mul, hangle]

/-- Differences of points mapped by an affine matrix. -/
theorem map_sub_map (m : QMatrix4x4 ℝ) (h1 : m.m41 = 0) (h2 : m.m42 = 0) (h3 : m.m43 = 0)
    (h4 : m.m44 = 1) (p q : QVector3D ℝ) :
    (m.map p).sub (m.map q) = m.mapVector (p.sub q) := by
  simp only [QMatrix4x4.map, h1, h2, h3, h4, mul_zero, add_zero, zero_add, if_true,
    QVector3D.sub, QMatrix4x4.mapVector]
  ext <;> simp only [] <;> ring

theorem lengthSquared_mapVector (c s k tx ty tz : ℝ) (hcs : c ^ 2 + s ^ 2 = 1)
    (v : QVector3D ℝ) :
    ((⟨c * k, 0, s * k, tx, 0, k, 0, ty, -s * k, 0, c * k, tz, 0, 0, 0, 1⟩ :
        QMatrix4x4 ℝ).mapVector v).lengthSquared = k ^ 2 * v.lengthSquared := by
  simp only [QMatrix4x4.mapVector, QVector3D.lengthSquared]
  linear_combination (k ^ 2 * (v.x ^ 2 + v.z ^ 2)) * hcs

theorem lengthSquared_cross_mapVector (c s k tx ty tz : ℝ) (hcs : c ^ 2 + s ^ 2 = 1)
    (u v : QVector3D ℝ) :
    (((⟨c * k, 0, s * k, tx, 0, k, 0, ty, -s * k, 0, c * k, tz, 0, 0, 0, 1⟩ :
          QMatrix4x4 ℝ).mapVector u).crossProduct
      ((⟨c * k, 0, s * k, tx, 0, k, 0, ty, -s * k, 0, c * k, tz, 0, 0, 0, 1⟩ :
          QMatrix4x4 ℝ).mapVector v)).lengthSquared
      = k ^ 4 * (u.crossProduct v).lengthSquared := by
  simp only [QMatrix4x4.mapVector, QVector3D.lengthSquared, QVector3D.crossProduct]
  linear_combination
    (k ^ 4 * ((u.y * v.z - u.z * v.y) ^ 2 + (u.x * v.y - u.y * v.x) ^ 2 +
      (c ^ 2 + s ^ 2 + 1) * (u.z * v.x - u.x * v.z) ^ 2)) * hcs

theorem lengthSquared_cross_normalized (u v : QVector3D ℝ) (hu : 0 < u.lengthSquared)
    (hv : 0 < v.lengthSquared) :
    ((QVector3D.normalized ⟨Real.sin, Real.cos, Real.sqrt, Real.pi⟩ u).crossProduct
      (QVector3D.normalized ⟨Real.sin, Real.cos, Real.sqrt, Real.pi⟩ v)).lengthSquared
      = (u.crossProduct v).lengthSquared / (u.lengthSquared * v.lengthSquared) := by
  rw [normalized_real u hu, normalized_real v hv]
  have hsu := Real.mul_self_sqrt hu.le
  have hsv := Real.mul_self_sqrt hv.le
  have key : ∀ a b : ℝ,
      ((⟨u.x / a, u.y / a, u.z / a⟩ : QVector3D ℝ).crossProduct
        ⟨v.x / b, v.y / b, v.z / b⟩).lengthSquared
        = (u.crossProduct v).lengthSquared / ((a * a) * (b * b)) := by
    intro a b
    simp only [QVector3D.lengthSquared, QVector3D.crossProduct]
    ring
  rw [key, hsu, hsv]

end RealHorn


section RealApex

theorem ne_zero_of_lengthSquared_pos (v : QVector3D ℝ) (h : 0 < v.lengthSquared) :
    v ≠ ⟨0, 0, 0⟩ := by
  intro hv
  rw [hv] at h
  simp [QVector3D.lengthSquared] at h

/-- The cell of the loop body at `r1 = 0`. -/
theorem hornCell_apex (M : MathOps ℝ) (t : QMatrix4x4 ℝ) (a1 a2 r2 : ℝ) :
    hornCell M t a1 a2 0 r2 =
      ⟨t.map ⟨0, 0, 0⟩, t.map ⟨r2 * M.qSin a1, r2 * M.qCos a1, r2 * r2 * 7⟩,
       t.map ⟨r2 * M.qSin a2, r2 * M.qCos a2, r2 * r2 * 7⟩, t.map ⟨0, 0, 0⟩,
       QVector3D.normal M
        (QVector3D.normalized M ((t.map ⟨0, 0, 0⟩).sub
          (t.map ⟨r2 * M.qSin a1, r2 * M.qCos a1, r2 * r2 * 7⟩)))
        (QVector3D.normalized M ((t.map ⟨r2 * M.qSin a2, r2 * M.qCos a2, r2 * r2 * 7⟩).sub
          (t.map ⟨0, 0, 0⟩)))⟩ := by
  simp [hornCell]

/-- The apex cell is non-degenerate under a scaled rotation about the y axis followed by
a translation, as soon as the two angles of the sector differ by no multiple of pi. -/
theorem apex_general (c s k tx ty tz a1 a2 r2 : ℝ) (hcs : c ^ 2 + s ^ 2 = 1) (hk : k ≠ 0)
    (hr : r2 ≠ 0) (hsin : Real.sin (a2 - a1) ≠ 0) :
    ApexNonDegenerate ⟨Real.sin, Real.cos, Real.sqrt, Real.pi⟩
      (hornCell ⟨Real.sin, Real.cos, Real.sqrt, Real.pi⟩
        ⟨c * k, 0, s * k, tx, 0, k, 0, ty, -s * k, 0, c * k, tz, 0, 0, 0, 1⟩ a1 a2 0 r2) := by
  rw [hornCell_apex]
  unfold ApexNonDegenerate
  simp only []
  rw [map_sub_map _ rfl rfl rfl rfl, map_sub_map _ rfl rfl rfl rfl]
  have hk2 : 0 < k ^ 2 := by positivity
  have hk4 : 0 < k ^ 4 := by positivity
  have hr4 : 0 < (r2 * r2 * 7) ^ 2 := by positivity
  have hq1 : 0 < ((⟨0, 0, 0⟩ : QVector3D ℝ).sub
      ⟨r2 * Real.sin a1, r2 * Real.cos a1, r2 * r2 * 7⟩).lengthSquared := by
    simp only [QVector3D.sub, QVector3D.lengthSquared]
    nlinarith [sq_nonneg (r2 * Real.sin a1), sq_nonneg (r2 * Real.cos a1)]
  have hq2 : 0 < ((⟨r2 * Real.sin a2, r2 * Real.cos a2, r2 * r2 * 7⟩ : QVector3D ℝ).sub
      ⟨0, 0, 0⟩).lengthSquared := by
    simp only [QVector3D.sub, QVector3D.lengthSquared]
    nlinarith [sq_nonneg (r2 * Real.sin a2), sq_nonneg (r2 * Real.cos a2)]
  have hz : 0 < (r2 ^ 2 * Real.sin (a2 - a1)) ^ 2 := by positivity
  have hqc : 0 < (((⟨0, 0, 0⟩ : QVector3D ℝ).sub
        ⟨r2 * Real.sin a1, r2 * Real.cos a1, r2 * r2 * 7⟩).crossProduct
      ((⟨r2 * Real.sin a2, r2 * Real.cos a2, r2 * r2 * 7⟩ : QVector3D ℝ).sub
        ⟨0, 0, 0⟩)).lengthSquared := by
    simp only [QVector3D.sub, QVector3D.crossProduct, QVector3D.lengthSquared]
    rw [Real.sin_sub] at hz
    nlinarith [sq_nonneg ((0 - r2 * Real.cos a1) * (r2 * r2 * 7 - 0) -
        (0 - r2 * r2 * 7) * (r2 * Real.cos a2 - 0)),
      sq_nonneg ((0 - r2 * r2 * 7) * (r2 * Real.sin a2 - 0) -
        (0 - r2 * Real.sin a1) * (r2 * r2 * 7 - 0))]
  have hd1 := lengthSquared_mapVector c s k tx ty tz hcs
    ((⟨0, 0, 0⟩ : QVector3D ℝ).sub ⟨r2 * Real.sin a1, r2 * Real.cos a1, r2 * r2 * 7⟩)
  have hd2 := lengthSquared_mapVector c s k tx ty tz hcs
    ((⟨r2 * Real.sin a2, r2 * Real.cos a2, r2 * r2 * 7⟩ : QVector3D ℝ).sub ⟨0, 0, 0⟩)
  have hdc := lengthSquared_cross_mapVector c s k tx ty tz hcs
    ((⟨0, 0, 0⟩ : QVector3D ℝ).sub ⟨r2 * Real.sin a1, r2 * Real.cos a1, r2 * r2 * 7⟩)
    ((⟨r2 * Real.sin a2, r2 * Real.cos a2, r2 * r2 * 7⟩ : QVector3D ℝ).sub ⟨0, 0, 0⟩)
  have hp1 := mul_pos hk2 hq1
  have hp2 := mul_pos hk2 hq2
  have hpc := mul_pos hk4 hqc
  rw [← hd1] at hp1
  rw [← hd2] at hp2
  rw [← hdc] at hpc
  have hn := lengthSquared_cross_normalized _ _ hp1 hp2
  have hnpos := div_pos hpc (mul_pos hp1 hp2)
  rw [← hn] at hnpos
  refine ⟨trivial, ne_zero_of_lengthSquared_pos _ hp1, ne_zero_of_lengthSquared_pos _ hp2,
    ne_zero_of_lengthSquared_pos _ hpc, ne_of_gt (Real.sqrt_pos.mpr hp1),
    ne_of_gt (Real.sqrt_pos.mpr hp2), ne_of_gt (Real.sqrt_pos.mpr hnpos), trivial, ?_, ?_⟩
  · apply ne_zero_of_lengthSquared_pos
    unfold QVector3D.normal
    rw [lengthSquared_normalized _ hnpos]
    norm_num
  · unfold QVector3D.normal
    exact lengthSquared_normalized _ hnpos

/-- The angles of sector `i` of a horn of 100 sectors differ by `2 * Pi / 100`. -/
theorem horn_angle_step (i : Nat) (hi : i < 100) :
    Real.sin (((wrapInt (((i : Int) + 1) * 2) : Int) : ℝ) * Pi / ((100 : Int) : ℝ)
      - ((wrapInt ((i : Int) * 2) : Int) : ℝ) * Pi / ((100 : Int) : ℝ)) ≠ 0 := by
  rw [wrapInt_of_small _ (by omega) (by omega), wrapInt_of_small _ (by omega) (by omega)]
  have e : (((((i : Int) + 1) * 2 : Int) : ℝ) * Pi / ((100 : Int) : ℝ)
      - ((((i : Int) * 2 : Int)) : ℝ) * Pi / ((100 : Int) : ℝ)) = 2 * Pi / 100 := by
    push_cast
    ring
  rw [e]
  apply ne_of_gt
  have hP := Pi_pos
  have hP2 := Pi_lt_pi
  apply Real.sin_pos_of_pos_of_lt_pi
  · positivity
  · linarith

/-- The apex cell of every sector of both horns of `createHorns`. -/
theorem apex_cells (i : Nat) (hi : i < 100) :
    ApexNonDegenerate ⟨Real.sin, Real.cos, Real.sqrt, Real.pi⟩
      (hornCell ⟨Real.sin, Real.cos, Real.sqrt, Real.pi⟩
        (transform1 ⟨Real.sin, Real.cos, Real.sqrt, Real.pi⟩)
        (((wrapInt ((i : Int) * 2) : Int) : ℝ) * Pi / ((100 : Int) : ℝ))
        (((wrapInt (((i : Int) + 1) * 2) : Int) : ℝ) * Pi / ((100 : Int) : ℝ)) 0 (0 + 0.01)) ∧
    ApexNonDegenerate ⟨Real.sin, Real.cos, Real.sqrt, Real.pi⟩
      (hornCell ⟨Real.sin, Real.cos, Real.sqrt, Real.pi⟩
        (transform2 ⟨Real.sin, Real.cos, Real.sqrt, Real.pi⟩)
        (((wrapInt ((i : Int) * 2) : Int) : ℝ) * Pi / ((100 : Int) : ℝ))
        (((wrapInt (((i : Int) + 1) * 2) : Int) : ℝ) * Pi / ((100 : Int) : ℝ)) 0 (0 + 0.01)) := by
  have h1 : transform1 ⟨Real.sin, Real.cos, Real.sqrt, Real.pi⟩ = _ :=
    horn_transform_real (-0.3) 135 (by norm_num)
  have h2 : transform2 ⟨Real.sin, Real.cos, Real.sqrt, Real.pi⟩ = _ :=
    horn_transform_real 0.3 225 (by norm_num)
  rw [h1, h2]
  exact ⟨apex_general _ _ _ _ _ _ _ _ _ (Real.cos_sq_add_sin_sq _) (by norm_num) (by norm_num)
      (horn_angle_step i hi),
    apex_general _ _ _ _ _ _ _ _ _ (Real.cos_sq_add_sin_sq _) (by norm_num) (by norm_num)
      (horn_angle_step i hi)⟩

end RealApex

/-! ## The sphere normals, the pole seam and the horn apex -/

section Geometry

/-- The cell `(i, j)` of the sphere as `createSphere` leaves it in the buffers. -/
theorem createSphere_emits (M : MathOps ℝ) (s : Renderer ℝ) (i j : Nat) (hi : i < 200)
    (hj : j < 100) :
    EmitsCellAt s (createSphere M s) (i * 100 + j) (sphereCell M 200 i j) := by
  have h := createSphereWith_emits M 200 s i j hi (by omega)
  have e : 200 / 2 = 100 := rfl
  rw [e] at h
  rw [createSphere]
  exact h

/-- The apex cells of sector `i` of the two horns as `createHorns` leaves them in the
buffers. -/
theorem createHorns_emits_apex (M : MathOps ℝ) (s : Renderer ℝ) (i : Nat) (hi : i < 100) :
    EmitsCellAt s (createHorns M s) (i * 27)
      (hornCell M (transform1 M) (((wrapInt ((i : Int) * 2) : Int) : ℝ) * Pi / ((100 : Int) : ℝ))
        (((wrapInt (((i : Int) + 1) * 2) : Int) : ℝ) * Pi / ((100 : Int) : ℝ)) 0 (0 + 0.01)) ∧
    EmitsCellAt s (createHorns M s) (2700 + i * 27)
      (hornCell M (transform2 M) (((wrapInt ((i : Int) * 2) : Int) : ℝ) * Pi / ((100 : Int) : ℝ))
        (((wrapInt (((i : Int) + 1) * 2) : Int) : ℝ) * Pi / ((100 : Int) : ℝ)) 0 (0 + 0.01)) := by
  have h := createHorns_emits M s i 0 hi (by decide)
  simp only [Nat.cast_zero, zero_mul, Nat.add_zero] at h
  exact h

/-- C7 (as amended). The flat normals of the sphere face inward: for every cell `(i, j)`
with `i < 200` and `j < 100`, the six positions and six normals `createSphere` appends at
cell position `i * 100 + j` (from any starting buffers, exact real arithmetic) are the
corners `p1, p2, p3, p3, p4, p1` and the normal `n` of the loop body at `(i, j)`, and `n`
has strictly negative dot product with each of `p1`, `p2`, `p3`, `p4`, measured from the
centre of the sphere (the origin). -/
theorem sphere_normals_face_inward (s : Renderer ℝ) (i j : Nat) (hi : i < 200)
    (hj : j < 100) :
    ∃ c : Cell ℝ,
      EmitsCellAt s (createSphere ⟨Real.sin, Real.cos, Real.sqrt, Real.pi⟩ s) (i * 100 + j) c ∧
      c = sphereCell ⟨Real.sin, Real.cos, Real.sqrt, Real.pi⟩ 200 i j ∧
      c.n.dotProduct c.p1 < 0 ∧ c.n.dotProduct c.p2 < 0 ∧
      c.n.dotProduct c.p3 < 0 ∧ c.n.dotProduct c.p4 < 0 := by
  have h := (sphereCell_inward i j hi hj).2
  exact ⟨_, createSphere_emits _ s i j hi hj, rfl, h _ (Or.inl rfl),
    h _ (Or.inr (Or.inl rfl)), h _ (Or.inr (Or.inr (Or.inl rfl))),
    h _ (Or.inr (Or.inr (Or.inr rfl)))⟩

/-- C7, witness: the first cell of the sphere generated into empty buffers. -/
theorem sphere_normals_face_inward_witness :
    (0 < 200 ∧ 0 < 100) ∧
    ∃ c : Cell ℝ,
      EmitsCellAt freshRenderer (createSphere ⟨Real.sin, Real.cos, Real.sqrt, Real.pi⟩ freshRenderer) (0 * 100 + 0) c ∧
      c = sphereCell ⟨Real.sin, Real.cos, Real.sqrt, Real.pi⟩ 200 0 0 ∧
      c.n.dotProduct c.p1 < 0 ∧ c.n.dotProduct c.p2 < 0 ∧
      c.n.dotProduct c.p3 < 0 ∧ c.n.dotProduct c.p4 < 0 :=
  ⟨⟨by decide, by decide⟩, sphere_normals_face_inward freshRenderer 0 0 (by decide) (by decide)⟩

/-- C7, counterexample to the claim as stated: the cell `createSphere` appends to empty
buffers at cell position `3 * 100 + 40` (loop indices `i = 3`, `j = 40`) does not have a
normal with positive dot product with its four corners. -/
theorem sphere_normal_not_outward :
    ¬ ∃ c : Cell ℝ,
      EmitsCellAt freshRenderer (createSphere ⟨Real.sin, Real.cos, Real.sqrt, Real.pi⟩ freshRenderer) (3 * 100 + 40) c ∧
      0 < c.n.dotProduct c.p1 ∧ 0 < c.n.dotProduct c.p2 ∧
      0 < c.n.dotProduct c.p3 ∧ 0 < c.n.dotProduct c.p4 := by
  rintro ⟨c, hc, h1, -⟩
  have hu := emitsCellAt_unique _ _ _ _ _ hc
    (createSphere_emits ⟨Real.sin, Real.cos, Real.sqrt, Real.pi⟩ freshRenderer 3 40 (by decide) (by decide))
  rw [hu] at h1
  have h := (sphereCell_inward 3 40 (by decide) (by decide)).2 _ (Or.inl rfl)
  exact lt_asymm h1 h

/-- C8 (as amended). For every cell `(i, j)` of the sphere, the normal `createSphere`
appends at cell position `i * 100 + j` is, outside the final latitude band, the normalised
cross product `normalized((p1 - p2) x (p3 - p2))` of the corners appended there, and in the
final band `normalized((p1 - p4) x (p1 - p2))`; in both cases it has unit length. -/
theorem sphere_normal_is_normalized_cross (s : Renderer ℝ) (i j : Nat) (hi : i < 200)
    (hj : j < 100) :
    ∃ c : Cell ℝ,
      EmitsCellAt s (createSphere ⟨Real.sin, Real.cos, Real.sqrt, Real.pi⟩ s) (i * 100 + j) c ∧
      c = sphereCell ⟨Real.sin, Real.cos, Real.sqrt, Real.pi⟩ 200 i j ∧
      (j + 1 ≠ 200 / 2 →
        c.n = QVector3D.normalized ⟨Real.sin, Real.cos, Real.sqrt, Real.pi⟩ ((c.p1.sub c.p2).crossProduct (c.p3.sub c.p2))) ∧
      (j + 1 = 200 / 2 →
        c.n = QVector3D.normalized ⟨Real.sin, Real.cos, Real.sqrt, Real.pi⟩ ((c.p1.sub c.p4).crossProduct (c.p1.sub c.p2))) ∧
      c.n.lengthSquared = 1 := by
  refine ⟨_, createSphere_emits _ s i j hi hj, rfl, ?_, ?_, (sphereCell_inward i j hi hj).1⟩
  · intro h
    simp [sphereCell, sphereQuad, QVector3D.normal, h]
  · intro h
    simp [sphereCell, sphereQuad, QVector3D.normal, h]

/-- C8, witness: the first cell of the sphere generated into empty buffers. -/
theorem sphere_normal_is_normalized_cross_witness :
    (0 < 200 ∧ 0 < 100) ∧
    ∃ c : Cell ℝ,
      EmitsCellAt freshRenderer (createSphere ⟨Real.sin, Real.cos, Real.sqrt, Real.pi⟩ freshRenderer) (0 * 100 + 0) c ∧
      c = sphereCell ⟨Real.sin, Real.cos, Real.sqrt, Real.pi⟩ 200 0 0 ∧
      (0 + 1 ≠ 200 / 2 →
        c.n = QVector3D.normalized ⟨Real.sin, Real.cos, Real.sqrt, Real.pi⟩ ((c.p1.sub c.p2).crossProduct (c.p3.sub c.p2))) ∧
      (0 + 1 = 200 / 2 →
        c.n = QVector3D.normalized ⟨Real.sin, Real.cos, Real.sqrt, Real.pi⟩ ((c.p1.sub c.p4).crossProduct (c.p1.sub c.p2))) ∧
      c.n.lengthSquared = 1 :=
  ⟨⟨by decide, by decide⟩,
    sphere_normal_is_normalized_cross freshRenderer 0 0 (by decide) (by decide)⟩

/-- C8, counterexample to the claim as stated: the normal `createSphere` appends to empty
buffers at cell position `3 * 100 + 40` (loop indices `i = 3`, `j = 40`, outside the final
band) is not `normalize(p1 - p2) x (p3 - p2)` of the corners appended there. -/
theorem sphere_normal_not_unnormalized :
    ¬ ∃ c : Cell ℝ,
      EmitsCellAt freshRenderer (createSphere ⟨Real.sin, Real.cos, Real.sqrt, Real.pi⟩ freshRenderer) (3 * 100 + 40) c ∧
      c.n = (QVector3D.normalized ⟨Real.sin, Real.cos, Real.sqrt, Real.pi⟩ (c.p1.sub c.p2)).crossProduct (c.p3.sub c.p2) := by
  rintro ⟨c, hc, heq⟩
  have hu := emitsCellAt_unique _ _ _ _ _ hc
    (createSphere_emits ⟨Real.sin, Real.cos, Real.sqrt, Real.pi⟩ freshRenderer 3 40 (by decide) (by decide))
  rw [hu] at heq
  have hunit := (sphereCell_inward 3 40 (by decide) (by decide)).1
  rw [heq, sphereCell_200 _ 3 40 (by decide) (by decide)] at hunit
  have hshort := sphere_unnormalised_short (((3 : Nat) : ℝ) * (Pi / 100))
    ((((3 : Nat) : ℝ) + 1) * (Pi / 100)) (((40 : Nat) : ℝ) * (Pi / 100))
    ((((40 : Nat) : ℝ) + 1) * (Pi / 100))
  simp only [sphereQuad] at hunit
  linarith

/-- C9. No sign flip across the pole seam: for every longitude index `i < 200`, the cells
`createSphere` appends at cell positions `i * 100 + 99` (final latitude band, normal by the
fallback formula from `p1 - p4` and `p1 - p2`) and `i * 100 + 98` (adjacent cell of the
same column, normal by the general formula from `p1 - p2` and `p3 - p2`) have normals with
strictly positive dot product, in exact real arithmetic. -/
theorem pole_seam_no_sign_flip (s : Renderer ℝ) (i : Nat) (hi : i < 200) :
    ∃ c d : Cell ℝ,
      EmitsCellAt s (createSphere ⟨Real.sin, Real.cos, Real.sqrt, Real.pi⟩ s) (i * 100 + 99) c ∧
      EmitsCellAt s (createSphere ⟨Real.sin, Real.cos, Real.sqrt, Real.pi⟩ s) (i * 100 + 98) d ∧
      c = sphereCell ⟨Real.sin, Real.cos, Real.sqrt, Real.pi⟩ 200 i 99 ∧ d = sphereCell ⟨Real.sin, Real.cos, Real.sqrt, Real.pi⟩ 200 i 98 ∧
      c.n = QVector3D.normal ⟨Real.sin, Real.cos, Real.sqrt, Real.pi⟩ (c.p1.sub c.p4) (c.p1.sub c.p2) ∧
      d.n = QVector3D.normal ⟨Real.sin, Real.cos, Real.sqrt, Real.pi⟩ (d.p1.sub d.p2) (d.p3.sub d.p2) ∧
      0 < c.n.dotProduct d.n :=
  ⟨_, _, createSphere_emits _ s i 99 hi (by decide), createSphere_emits _ s i 98 hi (by decide),
    rfl, rfl, rfl, rfl, seam_cells i hi⟩

/-- C9, witness: the longitude column `i = 0` of the sphere generated into empty
buffers. -/
theorem pole_seam_no_sign_flip_witness :
    0 < 200 ∧
    ∃ c d : Cell ℝ,
      EmitsCellAt freshRenderer (createSphere ⟨Real.sin, Real.cos, Real.sqrt, Real.pi⟩ freshRenderer) (0 * 100 + 99) c ∧
      EmitsCellAt freshRenderer (createSphere ⟨Real.sin, Real.cos, Real.sqrt, Real.pi⟩ freshRenderer) (0 * 100 + 98) d ∧
      c = sphereCell ⟨Real.sin, Real.cos, Real.sqrt, Real.pi⟩ 200 0 99 ∧ d = sphereCell ⟨Real.sin, Real.cos, Real.sqrt, Real.pi⟩ 200 0 98 ∧
      c.n = QVector3D.normal ⟨Real.sin, Real.cos, Real.sqrt, Real.pi⟩ (c.p1.sub c.p4) (c.p1.sub c.p2) ∧
      d.n = QVector3D.normal ⟨Real.sin, Real.cos, Real.sqrt, Real.pi⟩ (d.p1.sub d.p2) (d.p3.sub d.p2) ∧
      0 < c.n.dotProduct d.n :=
  ⟨by decide, pole_seam_no_sign_flip freshRenderer 0 (by decide)⟩

/-- C10. Horn apex rings are non-degenerate: for every sector `i < 100`, the cells
`createHorns` appends at cell positions `i * 27` (first horn, `transform1`) and
`2700 + i * 27` (second horn, `transform2`) are the cells of the first ring (`r1 = 0`,
`r2 = 0 + r_step`) of that sector; in each, `p1 = p4`, the edge vectors `d1 = p1 - p2` and
`d2 = p3 - p1` are nonzero and not parallel, and the emitted normal
`normal(normalize(d1), normalize(d2))` is computed without division by zero and is a
nonzero vector, in exact real arithmetic. -/
theorem horn_apex_nondegenerate (s : Renderer ℝ) (i : Nat) (hi : i < 100) :
    ∃ c d : Cell ℝ,
      EmitsCellAt s (createHorns ⟨Real.sin, Real.cos, Real.sqrt, Real.pi⟩ s) (i * 27) c ∧
      EmitsCellAt s (createHorns ⟨Real.sin, Real.cos, Real.sqrt, Real.pi⟩ s) (2700 + i * 27) d ∧
      c = hornCell ⟨Real.sin, Real.cos, Real.sqrt, Real.pi⟩ (transform1 ⟨Real.sin, Real.cos, Real.sqrt, Real.pi⟩)
        (((wrapInt ((i : Int) * 2) : Int) : ℝ) * Pi / ((100 : Int) : ℝ))
        (((wrapInt (((i : Int) + 1) * 2) : Int) : ℝ) * Pi / ((100 : Int) : ℝ)) 0 (0 + 0.01) ∧
      d = hornCell ⟨Real.sin, Real.cos, Real.sqrt, Real.pi⟩ (transform2 ⟨Real.sin, Real.cos, Real.sqrt, Real.pi⟩)
        (((wrapInt ((i : Int) * 2) : Int) : ℝ) * Pi / ((100 : Int) : ℝ))
        (((wrapInt (((i : Int) + 1) * 2) : Int) : ℝ) * Pi / ((100 : Int) : ℝ)) 0 (0 + 0.01) ∧
      ApexNonDegenerate ⟨Real.sin, Real.cos, Real.sqrt, Real.pi⟩ c ∧ ApexNonDegenerate ⟨Real.sin, Real.cos, Real.sqrt, Real.pi⟩ d :=
  ⟨_, _, (createHorns_emits_apex _ s i hi).1, (createHorns_emits_apex _ s i hi).2, rfl, rfl,
    (apex_cells i hi).1, (apex_cells i hi).2⟩

/-- C10, witness: sector `i = 0` of the horns generated into empty buffers. -/
theorem horn_apex_nondegenerate_witness :
    0 < 100 ∧
    ∃ c d : Cell ℝ,
      EmitsCellAt freshRenderer (createHorns ⟨Real.sin, Real.cos, Real.sqrt, Real.pi⟩ freshRenderer) (0 * 27) c ∧
      EmitsCellAt freshRenderer (createHorns ⟨Real.sin, Real.cos, Real.sqrt, Real.pi⟩ freshRenderer) (2700 + 0 * 27) d ∧
      c = hornCell ⟨Real.sin, Real.cos, Real.sqrt, Real.pi⟩ (transform1 ⟨Real.sin, Real.cos, Real.sqrt, Real.pi⟩)
        (((wrapInt (((0 : Nat) : Int) * 2) : Int) : ℝ) * Pi / ((100 : Int) : ℝ))
        (((wrapInt ((((0 : Nat) : Int) + 1) * 2) : Int) : ℝ) * Pi / ((100 : Int) : ℝ))
        0 (0 + 0.01) ∧
      d = hornCell ⟨Real.sin, Real.cos, Real.sqrt, Real.pi⟩ (transform2 ⟨Real.sin, Real.cos, Real.sqrt, Real.pi⟩)
        (((wrapInt (((0 : Nat) : Int) * 2) : Int) : ℝ) * Pi / ((100 : Int) : ℝ))
        (((wrapInt ((((0 : Nat) : Int) + 1) * 2) : Int) : ℝ) * Pi / ((100 : Int) : ℝ))
        0 (0 + 0.01) ∧
      ApexNonDegenerate ⟨Real.sin, Real.cos, Real.sqrt, Real.pi⟩ c ∧ ApexNonDegenerate ⟨Real.sin, Real.cos, Real.sqrt, Real.pi⟩ d :=
  ⟨by decide, horn_apex_nondegenerate freshRenderer 0 (by decide)⟩

/-- C1, witness: the renderer as constructed, with empty buffers. -/
theorem buffer_shape_invariant_witness :
    BufferShape (freshRenderer : Renderer ℝ) ∧
    BufferShape (createSphere ⟨Real.sin, Real.cos, Real.sqrt, Real.pi⟩ freshRenderer) ∧
    BufferShape (createGeometry ⟨Real.sin, Real.cos, Real.sqrt, Real.pi⟩ freshRenderer) :=
  ⟨⟨rfl, rfl⟩,
    (buffer_shape_invariant ⟨Real.sin, Real.cos, Real.sqrt, Real.pi⟩ freshRenderer ⟨rfl, rfl⟩).1,
    (buffer_shape_invariant ⟨Real.sin, Real.cos, Real.sqrt, Real.pi⟩ freshRenderer ⟨rfl, rfl⟩).2.2.1⟩

/-- C6, witness: the renderer as constructed has no surface; `render` leaves it as it
is. -/
theorem render_without_surface_witness :
    (freshRenderer : Renderer ℝ).m_surface = none ∧
    render ⟨Real.sin, Real.cos, Real.sqrt, Real.pi⟩ true (freshRenderer : Renderer ℝ) = freshRenderer :=
  ⟨rfl, (render_without_surface ⟨Real.sin, Real.cos, Real.sqrt, Real.pi⟩ true freshRenderer rfl).1⟩

end Geometry

end LogoGL
